import Mathlib

set_option maxHeartbeats 1000000

/-! Verification development for the `generals` real-time simulation core.

Embedded source files: `src/geometry.rs`, `src/unit.rs`, `src/main.rs`,
`src/interpreter.rs`.

Modelling conventions:
* `f64` values are modelled by exact rationals (`ℚ`) at the textual script
  boundary (the state codec manipulates decimal numerals only) and by real
  numbers (`ℝ`) inside the geometric state machine.
* `Uuid` identifiers are modelled by natural numbers; only equality of
  identifiers is ever used by the code.
* The `ncollide` proximity queries (`query::proximity`, `contains_point`)
  are external collaborators ("evaluated through a proximity-query
  collaborator"); they are passed to the embedded functions as oracle
  parameters.
-/

/-- Closed role enumeration, `unit.rs::UnitRole`. -/
inductive UnitRole : Type
| Soldier : UnitRole
| General : UnitRole
| Bullet : UnitRole
deriving DecidableEq

/-- State machine states, `unit.rs::UnitState`, parametric in the number
type modelling the `f64` payloads. -/
inductive UnitState (α : Type) : Type
| Idle : UnitState α
| Move (x y : α) : UnitState α
| Aim (x y : α) : UnitState α
| Shoot (x y : α) : UnitState α
| Dead : UnitState α
deriving DecidableEq

/-- Discrimination of the terminal state, mirroring the
`match u.state { Dead => true, _ => false }` pattern of
`main.rs::State::update`. -/
def UnitState.isDead {α : Type} : UnitState α → Bool
| UnitState.Dead => true
| _ => false

/-- Deltas produced by the script interpreter, `interpreter.rs::Delta`. -/
inductive Delta : Type
| UpdateState (id : ℕ) (state : UnitState ℚ) : Delta
| NewUnit (role : UnitRole) (id : ℕ) (x y rotation : ℚ) (team : ℕ) : Delta
deriving DecidableEq

/-! ### Decimal numerals

Helper machinery for the textual codec: decimal formatting of natural
numbers (used by Rust's `format!("{:.*}", 2, x)`) and digit-run scanning
(used by the `\d+.\d+` regular expressions of `unit.rs`'s `FromStr`). -/

/-- Character for a single decimal digit. -/
def digitChar (d : ℕ) : Char := Char.ofNat (48 + d)

/-- Least-significant-first decimal digits of a natural number, with an
explicit structural fuel so that the definition reduces in the kernel. -/
def natToRevDigitsAux : ℕ → ℕ → List ℕ
| 0, _ => []
| f + 1, n => if n = 0 then [] else n % 10 :: natToRevDigitsAux f (n / 10)

/-- Least-significant-first decimal digits of a natural number. -/
def natToRevDigits (n : ℕ) : List ℕ := natToRevDigitsAux (n + 1) n

/-- Decimal numeral (most significant digit first) of a natural number;
`0` is printed as `"0"`. -/
def digitsOfNat (n : ℕ) : List Char :=
if n = 0 then ['0'] else ((natToRevDigits n).reverse.map digitChar)

/-- Two-digit, zero-padded numeral for the fractional part of a
`{:.2}`-formatted float (values `0 ≤ r < 100`). -/
def pad2 (r : ℕ) : List Char :=
if r < 10 then '0' :: digitsOfNat r else digitsOfNat r

/-- Characters of Rust's `format!("{:.*}", 2, q)` applied to the rational
modelling an `f64`: the value is rounded to two decimal places and printed
with exactly two fractional digits. -/
def fmt2Cs (q : ℚ) : List Char :=
(if round (q * 100) < 0 then ['-'] else []) ++
  digitsOfNat ((round (q * 100)).natAbs / 100) ++
  '.' :: pad2 ((round (q * 100)).natAbs % 100)

/-- Rounding of a rational to two decimal places — the precision boundary
of the script interface ("floats are always formatted to 2 decimal places
on encode"). -/
def round2 (q : ℚ) : ℚ := (round (q * 100) : ℚ) / 100

/-- Numeric value of a most-significant-first list of digit characters. -/
def valOfDigits (l : List Char) : ℕ :=
l.foldl (fun a c => 10 * a + (c.toNat - 48)) 0

/-- Encoding of a unit state to text, `unit.rs`'s `impl ToString for
UnitState` (character-list form). -/
def encodeCs (s : UnitState ℚ) : List Char :=
match s with
| UnitState.Move x y =>
    'm' :: 'o' :: 'v' :: 'e' :: '(' :: (fmt2Cs x ++ ',' :: ' ' :: fmt2Cs y ++ [')'])
| UnitState.Aim x y =>
    'a' :: 'i' :: 'm' :: '(' :: (fmt2Cs x ++ ',' :: ' ' :: fmt2Cs y ++ [')'])
| UnitState.Shoot x y =>
    's' :: 'h' :: 'o' :: 'o' :: 't' :: '(' :: (fmt2Cs x ++ ',' :: ' ' :: fmt2Cs y ++ [')'])
| UnitState.Dead => ['d', 'e', 'a', 'd']
| UnitState.Idle => ['i', 'd', 'l', 'e']

/-- Encoding of a unit state to a string, `unit.rs`'s `impl ToString for
UnitState`. -/
def encode (s : UnitState ℚ) : String := String.mk (encodeCs s)

/-- Exact-prefix stripping: `dropLeading pre cs` returns the remainder of
`cs` after the literal prefix `pre`, or `none`.  This anchors the
`Regex::captures` search of `unit.rs::FromStr` at position 0; on every
string produced by the encoder the only candidate match is at position 0,
so the anchored model agrees with the unanchored regex there. -/
def dropLeading : List Char → List Char → Option (List Char)
| [], cs => some cs
| _ :: _, [] => none
| p :: ps, c :: cs => if p = c then dropLeading ps cs else none

/-- Scan of one `\d+.\d+` capture group followed by `f64::from_str` on the
captured text, returning the parsed value and the unconsumed remainder.
The greedy digit runs of the regex are maximal digit runs; the `.` of the
pattern is an arbitrary single character, but `f64::from_str` (and hence
the surrounding `unwrap`) succeeds only when that character is an actual
decimal point, so any other character is modelled as a parse failure. -/
def parseNum (cs : List Char) : Option (ℚ × List Char) :=
match cs.dropWhile Char.isDigit with
| [] => none
| c :: rest =>
  if (cs.takeWhile Char.isDigit).isEmpty then none
  else if c = '.' then
    if (rest.takeWhile Char.isDigit).isEmpty then none
    else some (((valOfDigits (cs.takeWhile Char.isDigit) : ℚ) +
       (valOfDigits (rest.takeWhile Char.isDigit) : ℚ) /
         (10 : ℚ) ^ (rest.takeWhile Char.isDigit).length,
       rest.dropWhile Char.isDigit))
  else none

/-- Matching of one `name(x, y)` pattern of `unit.rs::FromStr`: the literal
function name and parenthesis, a float capture, the literal `", "`, a
second float capture and the closing parenthesis (trailing characters are
permitted, as for the unanchored regex). -/
def parseNamed (name cs : List Char) : Option (ℚ × ℚ) :=
match dropLeading name cs with
| none => none
| some cs₁ =>
  match parseNum cs₁ with
  | none => none
  | some (x, cs₂) =>
    match dropLeading [',', ' '] cs₂ with
    | none => none
    | some cs₃ =>
      match parseNum cs₃ with
      | none => none
      | some (y, cs₄) =>
        match cs₄ with
        | ')' :: _ => some (x, y)
        | _ => none

/-- Decoding of a unit state from text (character-list form), `unit.rs`'s
`impl FromStr for UnitState`: the literal states `dead` and `idle`, then
the `move`, `aim` and `shoot` patterns in order; `none` covers both the
`Err` result and the interior `unwrap` panics, neither of which yields a
state. -/
def decodeCs (cs : List Char) : Option (UnitState ℚ) :=
if cs = ['d', 'e', 'a', 'd'] then some UnitState.Dead
else if cs = ['i', 'd', 'l', 'e'] then some UnitState.Idle
else
  match parseNamed ['m', 'o', 'v', 'e', '('] cs with
  | some (x, y) => some (UnitState.Move x y)
  | none =>
    match parseNamed ['a', 'i', 'm', '('] cs with
    | some (x, y) => some (UnitState.Aim x y)
    | none =>
      match parseNamed ['s', 'h', 'o', 'o', 't', '('] cs with
      | some (x, y) => some (UnitState.Shoot x y)
      | none => none

/-- Decoding of a unit state from a string, `unit.rs`'s `impl FromStr for
UnitState`. -/
def decode (s : String) : Option (UnitState ℚ) := decodeCs s.data

/-! ### Decimal numeral lemmas -/

/-- Value of a least-significant-first digit list. -/
def valRev : List ℕ → ℕ
| [] => 0
| d :: ds => d + 10 * valRev ds

/-- Value of a most-significant-first digit list. -/
def valNat (l : List ℕ) : ℕ := l.foldl (fun a d => 10 * a + d) 0

/-! ### Geometry

Real-valued embedding of `geometry.rs`.  Rust `f64` transcendentals
(`atan2`, `PI`) are modelled by their exact real counterparts. -/

/-- Truncation toward zero, the quotient underlying Rust's `%` on `f64`. -/
noncomputable def realTrunc (x : ℝ) : ℤ := if 0 ≤ x then ⌊x⌋ else ⌈x⌉

/-- Rust / IEEE-754 remainder on reals: `a - b * trunc (a / b)` (the result
keeps the sign of the dividend). -/
noncomputable def rustRem (a b : ℝ) : ℝ := a - b * (realTrunc (a / b) : ℝ)

/-- Mathematical `atan2` (Rust's `dy.atan2(dx)`), defined piecewise from
`Real.arctan`; its range is `(-π, π]`. -/
noncomputable def atan2 (y x : ℝ) : ℝ :=
if 0 < x then Real.arctan (y / x)
else if x < 0 then
  (if 0 ≤ y then Real.arctan (y / x) + Real.pi else Real.arctan (y / x) - Real.pi)
else
  (if 0 < y then Real.pi / 2 else if y < 0 then -(Real.pi / 2) else 0)

/-- Pose: 2-D position plus heading, `geometry.rs::Pose`. -/
structure Pose : Type where
  x : ℝ
  y : ℝ
  rotation : ℝ

/-- Heading update toward a target point,
`geometry.rs::Pose::rotate_towards` (the `dt` parameter of the source is
the per-call rotation budget `maxDelta`). -/
noncomputable def Pose.rotate_towards (p : Pose) (x y dt : ℝ) : Pose :=
let dx := x - p.x
let dy := y - p.y
let dest0 := rustRem (atan2 dy dx + Real.pi / 2) (2 * Real.pi)
let curr_rotation := rustRem p.rotation (2 * Real.pi)
let dest_rotation := if dest0 < 0 then dest0 + 2 * Real.pi else dest0
let delta := dest_rotation - curr_rotation
Pose.mk p.x p.y
  (if dest_rotation ≤ curr_rotation + dt ∧ dest_rotation ≥ curr_rotation - dt then
    dest_rotation
  else if delta > 0 ∧ delta < Real.pi then p.rotation + dt
  else if p.rotation - dt < 0 then p.rotation - dt + 2 * Real.pi
  else p.rotation - dt)

/-! ### Unit

Embedding of `unit.rs::Unit` and its per-tick update.  The `color` field
is a pure rendering artifact and is dropped; of `event_handlers` only the
presence of each script (`EventHandlers::get(..).is_some()`) is kept,
which is all the dispatch pipeline observes. -/

/-- Event kinds, `unit.rs::EventType` (also `interpreter.rs::EventType`). -/
inductive EventType : Type
| Collision : EventType
| StateChange : EventType
| EnterView : EventType
| ExitView : EventType
deriving DecidableEq

/-- Unit record, `unit.rs::Unit`. -/
structure Unit' : Type where
  id : ℕ
  team : ℕ
  x : ℝ
  y : ℝ
  width : ℝ
  speed : ℝ
  rotation : ℝ
  role : UnitRole
  state : UnitState ℝ
  state_queue : List (UnitState ℝ)
  on_collision : Bool
  on_state_change : Bool
  on_enter_view : Bool
  on_exit_view : Bool

/-- Handler presence, `unit.rs::Unit::get_handler` composed with
`Option::is_some`. -/
def Unit'.get_handler (u : Unit') : EventType → Bool
| EventType.Collision => u.on_collision
| EventType.StateChange => u.on_state_change
| EventType.EnterView => u.on_enter_view
| EventType.ExitView => u.on_exit_view

/-- A freshly constructed bullet, `unit.rs::Unit::new_bullet` through
`Unit::new`: role `Bullet`, width 5, speed 150, rotation 0, empty state
queue.  The `Uuid::new_v4` identifier is an external random source and is
supplied by the caller as `id`; the bullet's script handlers are read
from disk at construction and no claim depends on them, so they are
modelled as absent. -/
def new_bullet (id : ℕ) (x y : ℝ) (team : ℕ) (state : UnitState ℝ) : Unit' :=
{ id := id, team := team, x := x, y := y, width := 5, speed := 150,
  rotation := 0, role := UnitRole.Bullet, state := state, state_queue := [],
  on_collision := false, on_state_change := false, on_enter_view := false,
  on_exit_view := false }

/-- Proportional axis split of a movement budget toward a target,
`unit.rs::Unit::move_towards`, returning the per-axis deltas.  Lean's
0-division convention yields `(0, 0)` where Rust produces NaN
(`0.0 / 0.0`), which can only happen when the unit sits exactly on the
target point. -/
noncomputable def Unit'.move_towards (u : Unit') (x y dist : ℝ) : ℝ × ℝ :=
let xp := if x > u.x then (x - u.x, dist) else if x < u.x then (u.x - x, -dist) else (0, 0)
let yp := if y > u.y then (y - u.y, dist) else if y < u.y then (u.y - y, -dist) else (0, 0)
(xp.2 * (xp.1 / (xp.1 + yp.1)), yp.2 * (yp.1 / (xp.1 + yp.1)))

/-- In-place translation toward a target,
`unit.rs::Unit::move_self_towards`. -/
noncomputable def Unit'.move_self_towards (u : Unit') (x y dt : ℝ) : Unit' :=
let d := u.move_towards x y (u.speed * dt)
{ u with x := u.x + d.1, y := u.y + d.2 }

/-- Per-tick state machine update, `unit.rs::Unit::update`.  `dt` is
`args.dt`; `canSeePt` is the oracle for `Unit::can_see_point` (an
`ncollide` `contains_point` query of the field-of-view wedge against a
point); `freshId` supplies the bullet's `Uuid::new_v4`.  Returns the
updated unit and the spawned units.  `self.state = self.next_state()` is
`Vec::pop` of the queue, modelled with the top of the stack at the head
of the list (push is cons). -/
noncomputable def Unit'.update (u : Unit') (dt : ℝ)
    (canSeePt : Unit' → ℝ → ℝ → Bool) (freshId : ℕ) : Unit' × List Unit' :=
match u.state with
| UnitState.Move x y =>
  if x < u.x + u.speed * dt ∧ x > u.x - u.speed * dt ∧
      y < u.y + u.speed * dt ∧ y > u.y - u.speed * dt then
    ({ u with x := x, y := y,
              state := u.state_queue.headD UnitState.Idle,
              state_queue := u.state_queue.tail }, [])
  else
    (u.move_self_towards x y dt, [])
| UnitState.Aim x y =>
  let dest0 := rustRem (atan2 (y - u.y) (x - u.x) + Real.pi / 2) (2 * Real.pi)
  let curr_rotation := rustRem u.rotation (2 * Real.pi)
  let dest_rotation := if dest0 < 0 then dest0 + 2 * Real.pi else dest0
  if dest_rotation < curr_rotation + dt ∧ dest_rotation > curr_rotation - dt then
    (if canSeePt { u with rotation := dest_rotation } x y then
      ({ u with rotation := dest_rotation,
                state := u.state_queue.headD UnitState.Idle,
                state_queue := u.state_queue.tail }, [])
    else
      (Unit'.move_self_towards { u with rotation := dest_rotation } x y dt, []))
  else if dest_rotation - curr_rotation > 0 ∧ dest_rotation - curr_rotation < Real.pi then
    ({ u with rotation := u.rotation + dt }, [])
  else if u.rotation - dt < 0 then
    ({ u with rotation := u.rotation - dt + 2 * Real.pi }, [])
  else
    ({ u with rotation := u.rotation - dt }, [])
| UnitState.Shoot x y =>
  if ¬ canSeePt u x y then
    ({ u with state := UnitState.Aim x y,
              state_queue := UnitState.Shoot x y :: u.state_queue }, [])
  else
    ({ u with state := u.state_queue.headD UnitState.Idle,
              state_queue := u.state_queue.tail },
     [new_bullet freshId (u.x + (u.move_towards x y (u.width + 10)).1)
        (u.y + (u.move_towards x y (u.width + 10)).2) u.team (UnitState.Move x y)])
| _ => (u, [])

/-- One `Move(x,y)` tick acting on the position alone: the `Move` arm of
`unit.rs::Unit::update` (snap test plus `move_self_towards`), specialised
to coordinates with movement budget `dist = speed * dt`. -/
noncomputable def moveTick (tx ty dist px py : ℝ) : ℝ × ℝ :=
if tx < px + dist ∧ tx > px - dist ∧ ty < py + dist ∧ ty > py - dist then (tx, ty)
else
  let xp := if tx > px then (tx - px, dist) else if tx < px then (px - tx, -dist) else (0, 0)
  let yp := if ty > py then (ty - py, dist) else if ty < py then (py - ty, -dist) else (0, 0)
  (px + xp.2 * (xp.1 / (xp.1 + yp.1)), py + yp.2 * (yp.1 / (xp.1 + yp.1)))

/-- Iterated `Move(x,y)` ticks. -/
noncomputable def moveIter (tx ty dist : ℝ) : ℕ → ℝ × ℝ → ℝ × ℝ
| 0, p => p
| n + 1, p => moveIter tx ty dist n (moveTick tx ty dist p.1 p.2)

/-! ### World

Embedding of `main.rs::State` and its per-tick pipeline.  The `ncollide`
proximity queries behind `Unit::overlaps` and `Unit::can_see` are the
oracle parameters `ov` and `cs`.  `HashMap` tables are modelled as
association lists with first-match lookup (insertion prepends, so lookup
has overwrite semantics); `HashSet` caches are `Finset ℕ`. -/

/-- First-match association-list lookup, `HashMap::get`. -/
def alistLookup {β : Type} : List (ℕ × β) → ℕ → Option β
| [], _ => none
| (k, v) :: l, i => if k = i then some v else alistLookup l i

/-- In-place overwrite of an existing cache slot:
`*cache.get_mut(&id).unwrap() = s` (the slot exists for every live unit,
an invariant maintained by `State::add_unit`). -/
def cacheWrite (l : List (ℕ × Finset ℕ)) (i : ℕ) (s : Finset ℕ) :
    List (ℕ × Finset ℕ) :=
l.map (fun p => if p.1 = i then (i, s) else p)

/-- In-place overwrite of a live unit's state: `unit.state = state` after
`units.get_mut(&id)`. -/
def unitsWriteState (l : List (ℕ × Unit')) (i : ℕ) (s : UnitState ℝ) :
    List (ℕ × Unit') :=
l.map (fun p => if p.1 = i then (i, { p.2 with state := s }) else p)

/-- World state, `main.rs::State`: the entity table and the two
relationship caches.  The `interpreter` field is the handle to the script
engine and carries no state observable by the embedded pipeline. -/
structure State : Type where
  units : List (ℕ × Unit')
  collision_cache : List (ℕ × Finset ℕ)
  view_cache : List (ℕ × Finset ℕ)

/-- Registration of a unit, `main.rs::State::add_unit`: fresh empty cache
slots plus the entity-table insert. -/
def State.add_unit (st : State) (u : Unit') : State :=
{ units := (u.id, u) :: st.units,
  collision_cache := (u.id, ∅) :: st.collision_cache,
  view_cache := (u.id, ∅) :: st.view_cache }

/-- Deltas as consumed by `main.rs::State::apply_delta` (this revision of
`main.rs` names the state-update variant `StateChange` and carries a
whole unit in `NewUnit`). -/
inductive WorldDelta : Type
| StateChange (id : ℕ) (state : UnitState ℝ) : WorldDelta
| NewUnit (unit : Unit') : WorldDelta

/-- Delta application, `main.rs::State::apply_delta`.  The
`units.get_mut(&id).unwrap()` of the `StateChange` arm panics when the id
is absent from the entity table; the panic is modelled as `none`.  A unit
already in the terminal `Dead` state silently ignores the new state. -/
noncomputable def State.apply_delta (st : State) (d : WorldDelta) : Option State :=
match d with
| WorldDelta.StateChange id state =>
  match alistLookup st.units id with
  | none => none
  | some u =>
    if u.state ≠ UnitState.Dead then
      some { st with units := unitsWriteState st.units id state }
    else
      some st
| WorldDelta.NewUnit u => some (st.add_unit u)

/-- End-of-tick removal of dead units, the tail of
`main.rs::State::update`: the ids whose state matches `Dead` are
collected and removed from the entity table (the cache slots are not
cleaned up). -/
def State.remove_dead (st : State) : State :=
{ st with units := st.units.filter (fun p => !p.2.state.isDead) }

/-- Collision detection for one unit, `main.rs::State::detect_collisions`:
the ids of the other units whose body overlaps this unit's body
(`Unit::overlaps` is the proximity oracle `ov`). -/
def detect_collisions (ov : Unit' → Unit' → Bool) (units : List (ℕ × Unit'))
    (u : Unit') : Finset ℕ :=
((units.filter (fun p => p.1 != u.id && ov u p.2)).map Prod.fst).toFinset

/-- View detection for one unit, `main.rs::State::detect_views`: the ids
of the other units whose body intersects this unit's field-of-view wedge
(`Unit::can_see` is the proximity oracle `cs`). -/
def detect_views (cs : Unit' → Unit' → Bool) (units : List (ℕ × Unit'))
    (u : Unit') : Finset ℕ :=
((units.filter (fun p => p.1 != u.id && cs u p.2)).map Prod.fst).toFinset

/-- One unit's collision pass, `main.rs::State::run_collisions`: detect
the current overlap set and, when a collision script is bound, dispatch
one event per newly-overlapping id (an id in the current set but not in
the cached set).  The `interpreter.exec` payloads are opaque script
outputs; the model returns the set of other-ids for which an event was
dispatched, together with the freshly detected set. -/
def run_collisions (ov : Unit' → Unit' → Bool) (units : List (ℕ × Unit'))
    (u : Unit') (collides : Finset ℕ) (hasScript : Bool) : Finset ℕ × Finset ℕ :=
let current := detect_collisions ov units u
if hasScript then (current \ collides, current) else (∅, current)

/-- Body of the `flat_map` of `main.rs::State::run_all_collisions` for one
unit, threading the world state and the dispatched events: a unit with a
bound collision handler runs its per-unit pass against its cache slot and
replaces the slot with the freshly detected set; a unit with no handler
returns early, leaving its cache slot untouched. -/
def racStep (ov : Unit' → Unit' → Bool) (units : List (ℕ × Unit'))
    (acc : State × Finset (ℕ × ℕ)) (p : ℕ × Unit') : State × Finset (ℕ × ℕ) :=
if p.2.on_collision then
  let r := run_collisions ov units p.2
    ((alistLookup acc.1.collision_cache p.2.id).getD ∅) true
  ({ acc.1 with collision_cache := cacheWrite acc.1.collision_cache p.2.id r.2 },
   acc.2 ∪ r.1.image (fun v => (p.2.id, v)))
else acc

/-- World collision pass, `main.rs::State::run_all_collisions`.  Returns
the updated state and the dispatched events as `(self, other)` pairs. -/
def State.run_all_collisions (st : State) (ov : Unit' → Unit' → Bool) :
    State × Finset (ℕ × ℕ) :=
st.units.foldl (racStep ov st.units) (st, ∅)

/-- One unit's enter-view pass, `main.rs::State::run_enter_views`: detect
the current view set and, when an enter-view script is bound, dispatch
one event per newly visible id. -/
def run_enter_views (cs : Unit' → Unit' → Bool) (units : List (ℕ × Unit'))
    (u : Unit') (seen : Finset ℕ) (hasScript : Bool) : Finset ℕ × Finset ℕ :=
let current := detect_views cs units u
if hasScript then (current \ seen, current) else (∅, current)

/-- One unit's exit-view pass, `main.rs::State::run_exit_views`: when an
exit-view script is bound, dispatch one event per id that left the view
set — but only if that unit is still present in the entity table (the
source's `FIXME: does not fire event when unit dies`). -/
def run_exit_views (units : List (ℕ × Unit')) (not_seen : Finset ℕ)
    (hasScript : Bool) : Finset ℕ :=
if hasScript then not_seen.filter (fun i => (alistLookup units i).isSome) else ∅

/-- Body of the `flat_map` of `main.rs::State::run_all_views` for one
unit: a unit with an enter-view or exit-view handler detects its current
view set, dispatches enter events for `current − seen` and exit events
for `seen − current`, and replaces its cache slot with the current set; a
unit with neither handler returns early, leaving its slot untouched. -/
def ravStep (cs : Unit' → Unit' → Bool) (units : List (ℕ × Unit'))
    (acc : State × Finset (ℕ × ℕ) × Finset (ℕ × ℕ)) (p : ℕ × Unit') :
    State × Finset (ℕ × ℕ) × Finset (ℕ × ℕ) :=
if p.2.on_enter_view || p.2.on_exit_view then
  let seen := (alistLookup acc.1.view_cache p.2.id).getD ∅
  let r := run_enter_views cs units p.2 seen p.2.on_enter_view
  let ex := run_exit_views units (seen \ r.2) p.2.on_exit_view
  ({ acc.1 with view_cache := cacheWrite acc.1.view_cache p.2.id r.2 },
   acc.2.1 ∪ r.1.image (fun v => (p.2.id, v)),
   acc.2.2 ∪ ex.image (fun v => (p.2.id, v)))
else acc

/-- World view pass, `main.rs::State::run_all_views`.  Returns the updated
state, the enter events and the exit events as `(self, other)` pairs. -/
def State.run_all_views (st : State) (cs : Unit' → Unit' → Bool) :
    State × Finset (ℕ × ℕ) × Finset (ℕ × ℕ) :=
st.units.foldl (ravStep cs st.units) (st, ∅, ∅)

/-- Movement/state pass, `main.rs::State::run_all_unit_updates`: every
unit is updated; the spawned units are collected (as `NewUnit` deltas);
afterwards one `StateChange` event is dispatched for every unit whose
discrete state changed this tick and which has a state-change handler
(`State::run_unit_update`).  Returns the updated state, the spawned
units, and the ids for which a `StateChange` event was dispatched. -/
noncomputable def State.run_all_unit_updates (st : State) (dt : ℝ)
    (canSeePt : Unit' → ℝ → ℝ → Bool) (freshId : ℕ → ℕ) :
    State × List Unit' × List ℕ :=
({ st with units := st.units.map (fun p => (p.1, (p.2.update dt canSeePt (freshId p.1)).1)) },
 (st.units.map (fun p => (p.2.update dt canSeePt (freshId p.1)).2)).flatten,
 (st.units.filter (fun p =>
    decide ((p.2.update dt canSeePt (freshId p.1)).1.state ≠ p.2.state)
      && p.2.on_state_change)).map Prod.fst)

/-! ### Script interpreter -/

/-- Snapshot of a unit crossing the script boundary,
`interpreter.rs::UnitSnapshot` (value copy, never a reference).  Its
`f64` fields are modelled as rationals: the snapshot state is only
compared for equality against the codec-decoded state. -/
structure UnitSnapshot : Type where
  id : ℕ
  x : ℚ
  y : ℚ
  team : ℕ
  role : UnitRole
  state : UnitState ℚ

/-- Script-side evaluation of one event,
`interpreter.rs::Interpreter::exec_function`.  The Lua call itself is the
opaque behavioural policy: `declared` is the text found in
`__self.state` after the call.  `Except.error` models the
worker-terminating panic on an undecodable state; `Except.ok none` is
the no-delta outcome (behavior absent, or state unchanged). -/
def exec_function (fnExists : Bool) (selfU : UnitSnapshot) (declared : String) :
    Except String (Option Delta) :=
if !fnExists then Except.ok none
else
  match decode declared with
  | some state =>
    if state ≠ selfU.state then Except.ok (some (Delta.UpdateState selfU.id state))
    else Except.ok none
  | none => Except.error declared

/-- Concrete dead unit used by witnesses. -/
def deadSoldier5 : Unit' :=
⟨5, 1, 0, 0, 25, 150, 0, UnitRole.Soldier, UnitState.Dead, [], true, true, true, true⟩

/-- Iterated collision passes with a per-tick overlap oracle (tick `t`
uses oracle `ov t`, absorbing the units' motion between ticks);
`collisionTrace ov st t` is the world just before tick `t`. -/
def collisionTrace (ov : ℕ → Unit' → Unit' → Bool) (st : State) : ℕ → State
| 0 => st
| t + 1 => ((collisionTrace ov st t).run_all_collisions (ov t)).1

/-- Collision events dispatched at tick `t`. -/
def collisionEventsAt (ov : ℕ → Unit' → Unit' → Bool) (st : State) (t : ℕ) :
    Finset (ℕ × ℕ) :=
((collisionTrace ov st t).run_all_collisions (ov t)).2

/-- Concrete unit 0 for cache counterexamples/witnesses: no handlers
bound. -/
def cu0 : Unit' :=
⟨0, 1, 0, 0, 25, 150, 0, UnitRole.Soldier, UnitState.Idle, [], false, false, false, false⟩

/-- Concrete unit 1: collision and enter-view handlers bound. -/
def cu1 : Unit' :=
⟨1, 2, 50, 50, 25, 150, 0, UnitRole.Soldier, UnitState.Idle, [], true, false, true, false⟩

/-- Concrete two-unit world with freshly initialised (empty) caches. -/
def cWorld : State :=
⟨[(0, cu0), (1, cu1)], [(0, ∅), (1, ∅)], [(0, ∅), (1, ∅)]⟩

/-- Squared Euclidean distance from the target `(tx, ty)`. -/
noncomputable def distSq (tx ty px py : ℝ) : ℝ := (tx - px) ^ 2 + (ty - py) ^ 2

/-- The scenario soldier of the spec ("Soldier at (0,0), Move(100,100),
speed 100"): role Soldier with the stipulated speed 100 (the constructor
`new_soldier` would set 150), a bound state-change handler, and a
parametric position and state queue. -/
def scenAt (q : List (UnitState ℝ)) (px py : ℝ) : Unit' :=
⟨0, 1, px, py, 25, 100, 0, UnitRole.Soldier, UnitState.Move 100 100, q, false, true,
  false, false⟩

/-- Scenario world: the single scenario soldier with fresh caches. -/
def scenWorld (q : List (UnitState ℝ)) : State :=
⟨[(0, scenAt q 0 0)], [(0, ∅)], [(0, ∅)]⟩

/-- Iterated movement/state passes (`run_all_unit_updates` once per
tick), keeping the updated entity table. -/
noncomputable def unitTicks (dt : ℝ) (cs : Unit' → ℝ → ℝ → Bool) (f : ℕ → ℕ)
    (st : State) : ℕ → State
| 0 => st
| n + 1 => ((unitTicks dt cs f st n).run_all_unit_updates dt cs f).1

/-- Concrete shooter used by the C6 counterexample and witness. -/
def cShooter : Unit' :=
⟨3, 1, 0, 0, 25, 150, 0, UnitRole.Soldier, UnitState.Shoot 10 10, [], false, false,
  false, false⟩

/-- Normalised bearing of `rotate_towards`: the quarter-turn-offset
`atan2` bearing reduced into `[0, 2π)` (lines 55–60 of `geometry.rs`). -/
noncomputable def destRotation (p : Pose) (x y : ℝ) : ℝ :=
let d0 := rustRem (atan2 (y - p.y) (x - p.x) + Real.pi / 2) (2 * Real.pi)
if d0 < 0 then d0 + 2 * Real.pi else d0

lemma natToRevDigitsAux_fuel (n : ℕ) : ∀ f g, n < f → n < g →
    natToRevDigitsAux f n = natToRevDigitsAux g n := by
  induction n using Nat.strong_induction_on with
  | _ n ih =>
    intro f g hf hg
    match f, g with
    | f' + 1, g' + 1 =>
      by_cases h0 : n = 0
      · simp [natToRevDigitsAux, h0]
      · have hd : n / 10 < n := Nat.div_lt_self (Nat.pos_of_ne_zero h0) (by norm_num)
        have hf' : n / 10 < f' := lt_of_lt_of_le hd (Nat.lt_succ_iff.mp hf)
        have hg' : n / 10 < g' := lt_of_lt_of_le hd (Nat.lt_succ_iff.mp hg)
        simp only [natToRevDigitsAux, h0, if_false]
        rw [ih (n / 10) hd f' g' hf' hg']

lemma natToRevDigits_zero : natToRevDigits 0 = [] := rfl

lemma natToRevDigits_eq (n : ℕ) (h : n ≠ 0) :
    natToRevDigits n = n % 10 :: natToRevDigits (n / 10) := by
  obtain ⟨k, rfl⟩ : ∃ k, n = k + 1 := ⟨n - 1, by omega⟩
  show natToRevDigitsAux (k + 1 + 1) (k + 1) = _
  rw [natToRevDigitsAux, if_neg h]
  congr 1
  exact natToRevDigitsAux_fuel ((k + 1) / 10) (k + 1) ((k + 1) / 10 + 1)
    (Nat.div_lt_self (Nat.succ_pos k) (by norm_num)) (Nat.lt_succ_self _)

lemma natToRevDigits_lt (n : ℕ) : ∀ d ∈ natToRevDigits n, d < 10 := by
  induction n using Nat.strong_induction_on with
  | _ n ih =>
    by_cases h : n = 0
    · subst h; intro d hd; simp [natToRevDigits_zero] at hd
    · rw [natToRevDigits_eq n h]
      intro d hd
      rcases List.mem_cons.mp hd with h1 | h2
      · subst h1; exact Nat.mod_lt _ (by norm_num)
      · exact ih (n / 10) (Nat.div_lt_self (Nat.pos_of_ne_zero h) (by norm_num)) d h2

lemma valNat_reverse (n : ℕ) : valNat (natToRevDigits n).reverse = n := by
  induction n using Nat.strong_induction_on with
  | _ n ih =>
    by_cases h : n = 0
    · subst h; rfl
    · rw [natToRevDigits_eq n h]
      have ihn := ih (n / 10) (Nat.div_lt_self (Nat.pos_of_ne_zero h) (by norm_num))
      simp only [valNat, List.reverse_cons, List.foldl_append, List.foldl_cons,
        List.foldl_nil] at ihn ⊢
      rw [ihn]
      omega

lemma digitChar_toNat (d : ℕ) (h : d < 10) : (digitChar d).toNat = 48 + d := by
  interval_cases d <;> rfl

lemma digitChar_isDigit (d : ℕ) (h : d < 10) : (digitChar d).isDigit = true := by
  interval_cases d <;> rfl

lemma valOfDigits_map_aux (l : List ℕ) (h : ∀ d ∈ l, d < 10) :
    ∀ a, (l.map digitChar).foldl (fun a c => 10 * a + (c.toNat - 48)) a =
      l.foldl (fun a d => 10 * a + d) a := by
  induction l with
  | nil => intro a; rfl
  | cons d ds ih =>
    intro a
    simp only [List.map_cons, List.foldl_cons]
    rw [digitChar_toNat d (h d (List.mem_cons_self d ds))]
    have he : 48 + d - 48 = d := by omega
    rw [he]
    exact ih (fun x hx => h x (List.mem_cons_of_mem _ hx)) _

lemma valOfDigits_map (l : List ℕ) (h : ∀ d ∈ l, d < 10) :
    valOfDigits (l.map digitChar) = valNat l :=
  valOfDigits_map_aux l h 0

lemma valOfDigits_digitsOfNat (n : ℕ) : valOfDigits (digitsOfNat n) = n := by
  by_cases h : n = 0
  · subst h; rfl
  · rw [digitsOfNat, if_neg h,
      valOfDigits_map _ (fun d hd => natToRevDigits_lt n d (List.mem_reverse.mp hd)),
      valNat_reverse]

lemma digitsOfNat_ne_nil (n : ℕ) : digitsOfNat n ≠ [] := by
  by_cases h : n = 0
  · subst h; simp [digitsOfNat]
  · rw [digitsOfNat, if_neg h]
    simp only [ne_eq, List.map_eq_nil_iff, List.reverse_eq_nil_iff]
    rw [natToRevDigits_eq n h]
    simp

lemma digitsOfNat_isDigit (n : ℕ) : ∀ c ∈ digitsOfNat n, c.isDigit = true := by
  by_cases h : n = 0
  · subst h; intro c hc; simp [digitsOfNat] at hc; subst hc; rfl
  · rw [digitsOfNat, if_neg h]
    intro c hc
    obtain ⟨d, hd, rfl⟩ := List.mem_map.mp hc
    exact digitChar_isDigit d (natToRevDigits_lt n d (List.mem_reverse.mp hd))

lemma digitsOfNat_length_lt10 (n : ℕ) (h : n < 10) : (digitsOfNat n).length = 1 := by
  by_cases h0 : n = 0
  · subst h0; rfl
  · rw [digitsOfNat, if_neg h0, List.length_map, List.length_reverse,
      natToRevDigits_eq n h0, Nat.div_eq_of_lt h, natToRevDigits_zero]
    rfl

lemma digitsOfNat_length_2 (n : ℕ) (h1 : 10 ≤ n) (h2 : n < 100) :
    (digitsOfNat n).length = 2 := by
  have hn0 : n ≠ 0 := by omega
  have hq : n / 10 ≠ 0 := by omega
  rw [digitsOfNat, if_neg hn0, List.length_map, List.length_reverse,
    natToRevDigits_eq n hn0, natToRevDigits_eq (n / 10) hq]
  have : n / 10 / 10 = 0 := by
    rw [Nat.div_div_eq_div_mul]
    exact Nat.div_eq_of_lt (by omega)
  rw [this, natToRevDigits_zero]
  rfl

lemma pad2_length (r : ℕ) (h : r < 100) : (pad2 r).length = 2 := by
  by_cases h10 : r < 10
  · rw [pad2, if_pos h10]
    simp [digitsOfNat_length_lt10 r h10]
  · rw [pad2, if_neg h10]
    exact digitsOfNat_length_2 r (by omega) h

lemma pad2_isDigit (r : ℕ) : ∀ c ∈ pad2 r, c.isDigit = true := by
  by_cases h10 : r < 10
  · rw [pad2, if_pos h10]
    intro c hc
    rcases List.mem_cons.mp hc with h1 | h2
    · subst h1; rfl
    · exact digitsOfNat_isDigit r c h2
  · rw [pad2, if_neg h10]
    exact digitsOfNat_isDigit r

lemma pad2_ne_nil (r : ℕ) : pad2 r ≠ [] := by
  by_cases h10 : r < 10
  · rw [pad2, if_pos h10]; simp
  · rw [pad2, if_neg h10]; exact digitsOfNat_ne_nil r

lemma valOfDigits_pad2 (r : ℕ) : valOfDigits (pad2 r) = valOfDigits (digitsOfNat r) := by
  by_cases h10 : r < 10
  · rw [pad2, if_pos h10]
    show List.foldl _ (10 * 0 + ('0'.toNat - 48)) _ = _
    rfl
  · rw [pad2, if_neg h10]

lemma takeWhile_app (p : Char → Bool) (l : List Char) (b : Char) (r : List Char)
    (hl : ∀ c ∈ l, p c = true) (hb : p b = false) :
    ((l ++ b :: r).takeWhile p) = l := by
  induction l with
  | nil => simpa [List.takeWhile_cons] using hb
  | cons a l ih =>
    have ha : p a = true := hl a (List.mem_cons_self a l)
    simp only [List.cons_append, List.takeWhile_cons, ha, if_true]
    rw [ih (fun c hc => hl c (List.mem_cons_of_mem _ hc))]

lemma dropWhile_app (p : Char → Bool) (l : List Char) (b : Char) (r : List Char)
    (hl : ∀ c ∈ l, p c = true) (hb : p b = false) :
    ((l ++ b :: r).dropWhile p) = b :: r := by
  induction l with
  | nil => simp [List.dropWhile_cons, hb]
  | cons a l ih =>
    have ha : p a = true := hl a (List.mem_cons_self a l)
    simp only [List.cons_append, List.dropWhile_cons, ha, if_true]
    exact ih (fun c hc => hl c (List.mem_cons_of_mem _ hc))

lemma parseNum_fmt2 (q : ℚ) (hq : 0 ≤ q) (c : Char) (hc : c.isDigit = false) (r : List Char) :
    parseNum (fmt2Cs q ++ c :: r) = some (round2 q, c :: r) := by
  have hn : 0 ≤ round (q * 100) := by
    rw [round_eq]; exact Int.floor_nonneg.mpr (by positivity)
  rw [fmt2Cs, if_neg (by omega)]
  have hb : (round (q * 100)).natAbs % 100 < 100 := Nat.mod_lt _ (by norm_num)
  have hshape : (([] : List Char) ++ digitsOfNat ((round (q * 100)).natAbs / 100) ++
      '.' :: pad2 ((round (q * 100)).natAbs % 100)) ++ c :: r =
      digitsOfNat ((round (q * 100)).natAbs / 100) ++
        '.' :: (pad2 ((round (q * 100)).natAbs % 100) ++ c :: r) := by
    simp [List.append_assoc]
  rw [hshape]
  have hdw : (digitsOfNat ((round (q * 100)).natAbs / 100) ++
      '.' :: (pad2 ((round (q * 100)).natAbs % 100) ++ c :: r)).dropWhile Char.isDigit =
      '.' :: (pad2 ((round (q * 100)).natAbs % 100) ++ c :: r) :=
    dropWhile_app _ _ _ _ (digitsOfNat_isDigit _) rfl
  have htw : (digitsOfNat ((round (q * 100)).natAbs / 100) ++
      '.' :: (pad2 ((round (q * 100)).natAbs % 100) ++ c :: r)).takeWhile Char.isDigit =
      digitsOfNat ((round (q * 100)).natAbs / 100) :=
    takeWhile_app _ _ _ _ (digitsOfNat_isDigit _) rfl
  have htw2 : (pad2 ((round (q * 100)).natAbs % 100) ++ c :: r).takeWhile Char.isDigit =
      pad2 ((round (q * 100)).natAbs % 100) :=
    takeWhile_app _ _ _ _ (pad2_isDigit _) hc
  have hdw2 : (pad2 ((round (q * 100)).natAbs % 100) ++ c :: r).dropWhile Char.isDigit =
      c :: r :=
    dropWhile_app _ _ _ _ (pad2_isDigit _) hc
  unfold parseNum
  rw [hdw]
  simp only [htw, htw2, hdw2, List.isEmpty_iff, digitsOfNat_ne_nil, pad2_ne_nil,
    if_false, reduceIte]
  congr 2
  rw [valOfDigits_pad2, valOfDigits_digitsOfNat, valOfDigits_digitsOfNat,
    pad2_length _ hb, round2]
  have hcast : (((round (q * 100)).natAbs : ℕ) : ℚ) = ((round (q * 100) : ℤ) : ℚ) := by
    rw [Int.cast_natAbs, abs_of_nonneg hn]
  have hdm : (((round (q * 100)).natAbs : ℕ) : ℚ) =
      100 * (((round (q * 100)).natAbs / 100 : ℕ) : ℚ) +
        (((round (q * 100)).natAbs % 100 : ℕ) : ℚ) := by
    exact_mod_cast (Nat.div_add_mod ((round (q * 100)).natAbs) 100).symm
  rw [← hcast, hdm]
  norm_num
  ring

lemma decode_encode_move (x y : ℚ) (hx : 0 ≤ x) (hy : 0 ≤ y) :
    decode (encode (UnitState.Move x y)) = some (UnitState.Move (round2 x) (round2 y)) := by
  show decodeCs (encodeCs (UnitState.Move x y)) = _
  rw [encodeCs]
  unfold decodeCs
  rw [if_neg (by simp), if_neg (by simp)]
  unfold parseNamed
  simp only [dropLeading, reduceIte, List.cons_append, List.append_assoc]
  rw [parseNum_fmt2 x hx ',' rfl (' ' :: (fmt2Cs y ++ [')']))]
  simp only [dropLeading, reduceIte]
  rw [parseNum_fmt2 y hy ')' rfl []]
  rfl

lemma decode_encode_aim (x y : ℚ) (hx : 0 ≤ x) (hy : 0 ≤ y) :
    decode (encode (UnitState.Aim x y)) = some (UnitState.Aim (round2 x) (round2 y)) := by
  show decodeCs (encodeCs (UnitState.Aim x y)) = _
  rw [encodeCs]
  unfold decodeCs
  rw [if_neg (by simp), if_neg (by simp)]
  unfold parseNamed
  simp only [dropLeading, reduceIte, List.cons_append, List.append_assoc]
  rw [parseNum_fmt2 x hx ',' rfl (' ' :: (fmt2Cs y ++ [')']))]
  simp only [dropLeading, reduceIte]
  rw [parseNum_fmt2 y hy ')' rfl []]
  rfl

lemma decode_encode_shoot (x y : ℚ) (hx : 0 ≤ x) (hy : 0 ≤ y) :
    decode (encode (UnitState.Shoot x y)) = some (UnitState.Shoot (round2 x) (round2 y)) := by
  show decodeCs (encodeCs (UnitState.Shoot x y)) = _
  rw [encodeCs]
  unfold decodeCs
  rw [if_neg (by simp), if_neg (by simp)]
  unfold parseNamed
  simp only [dropLeading, reduceIte, List.cons_append, List.append_assoc]
  rw [parseNum_fmt2 x hx ',' rfl (' ' :: (fmt2Cs y ++ [')']))]
  simp only [dropLeading, reduceIte]
  rw [parseNum_fmt2 y hy ')' rfl []]
  rfl

lemma fmt2Cs_neg_half : fmt2Cs (-1/2) = ['-', '0', '.', '5', '0'] := by
  have h : round (((-1/2) : ℚ) * 100) = -50 := by norm_num [round_eq]
  rw [fmt2Cs, h]
  norm_num
  decide

lemma fmt2Cs_two : fmt2Cs 2 = ['2', '.', '0', '0'] := by
  have h : round ((2 : ℚ) * 100) = 200 := by norm_num [round_eq]
  rw [fmt2Cs, h]
  norm_num
  decide

/-- Claim C8 (counterexample): the codec round trip fails outright for a
state with a negative float payload — `Move(-0.5, 2)` encodes to
`"move(-0.50, 2.00)"`, which the decoder's unsigned-numeral patterns
reject, so decoding yields no state at all rather than a value equal at
2-decimal precision. -/
theorem c8_codec_roundtrip_cex :
    decode (encode (UnitState.Move (-1/2) 2)) = none := by
  show decodeCs (encodeCs (UnitState.Move (-1/2) 2)) = none
  rw [encodeCs, fmt2Cs_neg_half, fmt2Cs_two]
  decide

/-- Claim C8 (amended): for the variants `Idle` and `Dead` the codec round
trip is exact; for the coordinate-carrying variants `Move(x,y)`,
`Aim(x,y)` (the spec's `Look`) and `Shoot(x,y)` (the code's `Shoot`
carries a point, not a unit id) with nonnegative payloads, encoding then
decoding reproduces the same variant with every float field replaced by
its rounding to 2 decimal places.  Negative payloads do not round-trip
(see the counterexample). -/
theorem c8_codec_roundtrip_amended (x y : ℚ) (hx : 0 ≤ x) (hy : 0 ≤ y) :
    decode (encode (UnitState.Move x y)) = some (UnitState.Move (round2 x) (round2 y)) ∧
    decode (encode (UnitState.Aim x y)) = some (UnitState.Aim (round2 x) (round2 y)) ∧
    decode (encode (UnitState.Shoot x y)) = some (UnitState.Shoot (round2 x) (round2 y)) ∧
    decode (encode (UnitState.Idle : UnitState ℚ)) = some UnitState.Idle ∧
    decode (encode (UnitState.Dead : UnitState ℚ)) = some UnitState.Dead :=
  ⟨decode_encode_move x y hx hy, decode_encode_aim x y hx hy,
    decode_encode_shoot x y hx hy, by decide, by decide⟩

/-- Claim C8 (witness): concrete instance of the amended round-trip
theorem at `Move(1, 2)`, whose payloads are already at 2-decimal
precision. -/

theorem c8_codec_roundtrip_witness :
    (0 : ℚ) ≤ 1 ∧ (0 : ℚ) ≤ 2 ∧
      decode (encode (UnitState.Move 1 2)) = some (UnitState.Move 1 2) := by
  refine ⟨by decide, by decide, ?_⟩
  have h := (c8_codec_roundtrip_amended 1 2 (by decide) (by decide)).1
  have h1 : round2 (1 : ℚ) = 1 := by norm_num [round2, round_eq]
  have h2 : round2 (2 : ℚ) = 2 := by norm_num [round2, round_eq]
  rw [h1, h2] at h
  exact h

/-! ### Association-list lemmas -/

lemma alistLookup_none_of_not_mem {β : Type} (l : List (ℕ × β)) (i : ℕ)
    (h : i ∉ l.map Prod.fst) : alistLookup l i = none := by
  induction l with
  | nil => rfl
  | cons p l ih =>
    obtain ⟨k, v⟩ := p
    simp only [List.map_cons, List.mem_cons] at h
    push_neg at h
    simp only [alistLookup]
    rw [if_neg (fun he => h.1 he.symm), ih h.2]

lemma alistLookup_filter_none (l : List (ℕ × Unit')) (i : ℕ) (u : Unit')
    (pred : ℕ × Unit' → Bool)
    (hnd : (l.map Prod.fst).Nodup)
    (hu : alistLookup l i = some u) (hp : pred (i, u) = false) :
    alistLookup (l.filter pred) i = none := by
  induction l with
  | nil => simp [alistLookup] at hu
  | cons p l ih =>
    obtain ⟨k, v⟩ := p
    simp only [List.map_cons, List.nodup_cons] at hnd
    simp only [alistLookup] at hu
    by_cases hk : k = i
    · rw [if_pos hk] at hu
      simp only [Option.some.injEq] at hu
      subst hk
      subst hu
      simp only [List.filter_cons, hp, Bool.false_eq_true, if_false]
      apply alistLookup_none_of_not_mem
      intro hmem
      simp only [List.mem_map] at hmem
      obtain ⟨q, hq, hqi⟩ := hmem
      exact hnd.1 (List.mem_map.mpr ⟨q, List.mem_of_mem_filter hq, hqi⟩)
    · rw [if_neg hk] at hu
      have hrest := ih hnd.2 hu
      simp only [List.filter_cons]
      by_cases hph : pred (k, v) = true
      · rw [if_pos hph]
        simp only [alistLookup]
        rw [if_neg hk]
        exact hrest
      · rw [if_neg hph]
        exact hrest

/-- Claim C9: for every script-actor request, a missing behavior function
yields no delta; otherwise the declared state text is decoded through the
codec and an `UpdateState(selfId, decodedState)` delta is produced
exactly when the decoded state differs from the snapshot's original
state. -/
theorem c9_exec_function_contract (s : UnitSnapshot) (d : String) (st : UnitState ℚ)
    (h : decode d = some st) :
    exec_function false s d = Except.ok none ∧
    (exec_function true s d = Except.ok (some (Delta.UpdateState s.id st)) ↔
      st ≠ s.state) ∧
    (st = s.state → exec_function true s d = Except.ok none) := by
  have hrw : exec_function true s d =
      (if st ≠ s.state then Except.ok (some (Delta.UpdateState s.id st))
       else Except.ok none) := by
    simp [exec_function, h]
  refine ⟨rfl, ?_, ?_⟩
  · by_cases hc : st = s.state
    · rw [hrw, if_neg (by simpa using hc)]
      simp [hc]
    · rw [hrw, if_pos hc]
      simp [hc]
  · intro hc
    rw [hrw, if_neg (by simpa using hc)]

/-- Claim C9 (witness): concrete instance — the declared text `"dead"`
decodes to `Dead`, which differs from the snapshot's `Idle` state, so the
worker returns `UpdateState(7, Dead)`; with the behavior absent it
returns nothing. -/
theorem c9_exec_function_contract_witness :
    decode "dead" = some (UnitState.Dead : UnitState ℚ) ∧
    exec_function false ⟨7, 0, 0, 1, UnitRole.Soldier, UnitState.Idle⟩ "dead" =
      Except.ok none ∧
    exec_function true ⟨7, 0, 0, 1, UnitRole.Soldier, UnitState.Idle⟩ "dead" =
      Except.ok (some (Delta.UpdateState 7 UnitState.Dead)) := by
  have h : decode "dead" = some (UnitState.Dead : UnitState ℚ) := by decide
  obtain ⟨h1, h2, _⟩ := c9_exec_function_contract
    ⟨7, 0, 0, 1, UnitRole.Soldier, UnitState.Idle⟩ "dead" UnitState.Dead h
  exact ⟨h, h1, h2.mpr (by decide)⟩

/-- Claim C7: an `UpdateState` delta (this revision's `StateChange`
variant) applied to a unit that is present in the entity table and whose
state is `Dead` is silently ignored — the returned world is exactly the
input world, every field included. -/
theorem c7_dead_terminal (st : State) (i : ℕ) (u : Unit') (s : UnitState ℝ)
    (hu : alistLookup st.units i = some u) (hd : u.state = UnitState.Dead) :
    st.apply_delta (WorldDelta.StateChange i s) = some st := by
  simp [State.apply_delta, hu, hd]

/-- Claim C7 (witness): a world holding one dead unit ignores a
state-update delta for it, returning the world unchanged. -/
theorem c7_dead_terminal_witness :
    alistLookup (State.mk [(5, deadSoldier5)] [] []).units 5 = some deadSoldier5 ∧
    deadSoldier5.state = UnitState.Dead ∧
    (State.mk [(5, deadSoldier5)] [] []).apply_delta
        (WorldDelta.StateChange 5 UnitState.Idle) =
      some (State.mk [(5, deadSoldier5)] [] []) := by
  have h1 : alistLookup (State.mk [(5, deadSoldier5)] [] []).units 5 =
      some deadSoldier5 := by
    simp [alistLookup]
  exact ⟨h1, rfl,
    c7_dead_terminal (State.mk [(5, deadSoldier5)] [] []) 5 deadSoldier5
      UnitState.Idle h1 rfl⟩

/-- Claim C10: applying a state-update delta whose target id is absent
from the entity table is an unwrapped failed lookup, i.e. a panic
(modelled `none`), not a silent ignore; consequently the Dead-unit
guarantee of C7 only holds until the end-of-tick removal of dead units —
after `remove_dead`, a late delta for the removed id crashes. -/
theorem c10_late_delta_panics (st : State) (i : ℕ) (s : UnitState ℝ) :
    (alistLookup st.units i = none →
      st.apply_delta (WorldDelta.StateChange i s) = none) ∧
    (∀ u, (st.units.map Prod.fst).Nodup →
      alistLookup st.units i = some u → u.state = UnitState.Dead →
      alistLookup (st.remove_dead).units i = none ∧
      (st.remove_dead).apply_delta (WorldDelta.StateChange i s) = none) := by
  constructor
  · intro h
    simp [State.apply_delta, h]
  · intro u hnd hu hd
    have hlook : alistLookup (st.remove_dead).units i = none := by
      apply alistLookup_filter_none st.units i u _ hnd hu
      simp [UnitState.isDead, hd]
    exact ⟨hlook, by simp [State.apply_delta, hlook]⟩

/-- Claim C10 (witness): the dead unit of the C7 witness is removed at
end of tick, after which the same delta that was previously ignored makes
`apply_delta` panic. -/
theorem c10_late_delta_panics_witness :
    ((State.mk [(5, deadSoldier5)] [] []).units.map Prod.fst).Nodup ∧
    alistLookup (State.mk [(5, deadSoldier5)] [] []).units 5 = some deadSoldier5 ∧
    (State.mk [(5, deadSoldier5)] [] []).remove_dead.apply_delta
      (WorldDelta.StateChange 5 UnitState.Idle) = none := by
  have hnd : ((State.mk [(5, deadSoldier5)] [] []).units.map Prod.fst).Nodup := by
    simp
  have h1 : alistLookup (State.mk [(5, deadSoldier5)] [] []).units 5 =
      some deadSoldier5 := by
    simp [alistLookup]
  exact ⟨hnd, h1,
    ((c10_late_delta_panics (State.mk [(5, deadSoldier5)] [] []) 5 UnitState.Idle).2
      deadSoldier5 hnd h1 rfl).2⟩

/-! ### Detection-pass lemmas -/

lemma cacheWrite_lookup_ne (l : List (ℕ × Finset ℕ)) (j : ℕ) (s : Finset ℕ)
    (i : ℕ) (h : j ≠ i) : alistLookup (cacheWrite l j s) i = alistLookup l i := by
  induction l with
  | nil => rfl
  | cons p l ih =>
    obtain ⟨k, v⟩ := p
    simp only [cacheWrite, List.map_cons]
    by_cases hk : k = j
    · subst hk
      have hhead : (if (k, v).1 = k then (k, s) else (k, v)) = (k, s) := by simp
      rw [hhead]
      simp only [alistLookup]
      rw [if_neg h, if_neg h]
      exact ih
    · rw [if_neg (by simpa using hk)]
      simp only [alistLookup]
      by_cases hki : k = i
      · rw [if_pos hki, if_pos hki]
      · rw [if_neg hki, if_neg hki]
        exact ih

lemma cacheWrite_lookup_eq (l : List (ℕ × Finset ℕ)) (i : ℕ) (s : Finset ℕ)
    (c : Finset ℕ) (h : alistLookup l i = some c) :
    alistLookup (cacheWrite l i s) i = some s := by
  induction l with
  | nil => simp [alistLookup] at h
  | cons p l ih =>
    obtain ⟨k, v⟩ := p
    simp only [alistLookup] at h
    simp only [cacheWrite, List.map_cons]
    by_cases hk : k = i
    · rw [if_pos (by simpa using hk)]
      simp [alistLookup]
    · rw [if_neg (by simpa using hk)]
      simp only [alistLookup]
      rw [if_neg hk] at h
      rw [if_neg hk]
      exact ih h

lemma racStep_units (ov : Unit' → Unit' → Bool) (units : List (ℕ × Unit'))
    (acc : State × Finset (ℕ × ℕ)) (p : ℕ × Unit') :
    (racStep ov units acc p).1.units = acc.1.units := by
  rw [racStep]
  split <;> rfl

lemma racStep_view (ov : Unit' → Unit' → Bool) (units : List (ℕ × Unit'))
    (acc : State × Finset (ℕ × ℕ)) (p : ℕ × Unit') :
    (racStep ov units acc p).1.view_cache = acc.1.view_cache := by
  rw [racStep]
  split <;> rfl

lemma foldl_racStep_units (ov : Unit' → Unit' → Bool) (units : List (ℕ × Unit')) :
    ∀ (l : List (ℕ × Unit')) (acc : State × Finset (ℕ × ℕ)),
      (l.foldl (racStep ov units) acc).1.units = acc.1.units := by
  intro l
  induction l with
  | nil => intro acc; rfl
  | cons p l ih =>
    intro acc
    rw [List.foldl_cons, ih, racStep_units]

lemma foldl_racStep_cache_skip (ov : Unit' → Unit' → Bool) (units : List (ℕ × Unit')) :
    ∀ (l : List (ℕ × Unit')) (acc : State × Finset (ℕ × ℕ)) (i : ℕ),
      (∀ p ∈ l, p.2.id ≠ i) →
      alistLookup (l.foldl (racStep ov units) acc).1.collision_cache i =
        alistLookup acc.1.collision_cache i := by
  intro l
  induction l with
  | nil => intro acc i _; rfl
  | cons p l ih =>
    intro acc i h
    rw [List.foldl_cons, ih _ i (fun q hq => h q (List.mem_cons_of_mem _ hq))]
    rw [racStep]
    split
    · exact cacheWrite_lookup_ne _ _ _ _ (h p (List.mem_cons_self p l))
    · rfl

lemma foldl_racStep_events_skip (ov : Unit' → Unit' → Bool) (units : List (ℕ × Unit')) :
    ∀ (l : List (ℕ × Unit')) (acc : State × Finset (ℕ × ℕ)) (i v : ℕ),
      (∀ p ∈ l, p.2.id ≠ i) →
      ((i, v) ∈ (l.foldl (racStep ov units) acc).2 ↔ (i, v) ∈ acc.2) := by
  intro l
  induction l with
  | nil => intro acc i v _; exact Iff.rfl
  | cons p l ih =>
    intro acc i v h
    rw [List.foldl_cons, ih _ i v (fun q hq => h q (List.mem_cons_of_mem _ hq))]
    rw [racStep]
    split
    · simp only [Finset.mem_union, Finset.mem_image]
      constructor
      · rintro (ha | ⟨w, _, hw⟩)
        · exact ha
        · exact absurd (congrArg Prod.fst hw) (by simpa using h p (List.mem_cons_self p l))
      · exact Or.inl
    · exact Iff.rfl

lemma alistLookup_split {β : Type} (l : List (ℕ × β)) (i : ℕ) (u : β)
    (h : alistLookup l i = some u) :
    ∃ l₁ l₂, l = l₁ ++ (i, u) :: l₂ ∧ ∀ p ∈ l₁, p.1 ≠ i := by
  induction l with
  | nil => simp [alistLookup] at h
  | cons p l ih =>
    obtain ⟨k, v⟩ := p
    simp only [alistLookup] at h
    by_cases hk : k = i
    · subst hk
      rw [if_pos rfl] at h
      simp only [Option.some.injEq] at h
      subst h
      exact ⟨[], l, rfl, by simp⟩
    · rw [if_neg hk] at h
      obtain ⟨l₁, l₂, heq, hni⟩ := ih h
      exact ⟨(k, v) :: l₁, l₂, by rw [heq]; rfl,
        by
          intro q hq
          rcases List.mem_cons.mp hq with h1 | h2
          · subst h1; exact hk
          · exact hni q h2⟩

lemma foldl_racStep_main (ov : Unit' → Unit' → Bool)
    (units l₁ l₂ : List (ℕ × Unit')) (i : ℕ) (u : Unit')
    (c : Finset ℕ) (acc : State × Finset (ℕ × ℕ))
    (hskip1 : ∀ p ∈ l₁, p.2.id ≠ i) (hskip2 : ∀ p ∈ l₂, p.2.id ≠ i)
    (hidu : u.id = i)
    (hacc : alistLookup acc.1.collision_cache i = some c) :
    alistLookup (((l₁ ++ (i, u) :: l₂).foldl (racStep ov units) acc)).1.collision_cache i =
      some (if u.on_collision then detect_collisions ov units u else c) := by
  rw [List.foldl_append, List.foldl_cons]
  rw [foldl_racStep_cache_skip ov units l₂ _ i hskip2]
  have hpre : alistLookup ((l₁.foldl (racStep ov units) acc)).1.collision_cache i =
      some c := by
    rw [foldl_racStep_cache_skip ov units l₁ _ i hskip1]
    exact hacc
  rw [racStep]
  by_cases hoc : u.on_collision
  · rw [if_pos (show (i, u).2.on_collision = true from hoc)]
    simp only [run_collisions, if_pos rfl]
    have : (i, u).2.id = i := by simpa using hidu
    rw [this]
    rw [cacheWrite_lookup_eq _ i _ c hpre]
    rw [if_pos hoc]
    simp
  · rw [if_neg (show ¬ (i, u).2.on_collision = true by simpa using hoc)]
    rw [hpre, if_neg hoc]

lemma foldl_racStep_events_main (ov : Unit' → Unit' → Bool)
    (units l₁ l₂ : List (ℕ × Unit')) (i : ℕ) (u : Unit') (v : ℕ)
    (c : Finset ℕ) (acc : State × Finset (ℕ × ℕ))
    (hskip1 : ∀ p ∈ l₁, p.2.id ≠ i) (hskip2 : ∀ p ∈ l₂, p.2.id ≠ i)
    (hidu : u.id = i)
    (hacc : alistLookup acc.1.collision_cache i = some c) :
    ((i, v) ∈ ((l₁ ++ (i, u) :: l₂).foldl (racStep ov units) acc).2 ↔
      (i, v) ∈ acc.2 ∨
        (u.on_collision ∧ v ∈ detect_collisions ov units u ∧ v ∉ c)) := by
  rw [List.foldl_append, List.foldl_cons]
  rw [foldl_racStep_events_skip ov units l₂ _ i v hskip2]
  have hpre : alistLookup ((l₁.foldl (racStep ov units) acc)).1.collision_cache i =
      some c := by
    rw [foldl_racStep_cache_skip ov units l₁ _ i hskip1]
    exact hacc
  have hev1 : ∀ w, ((i, w) ∈ (l₁.foldl (racStep ov units) acc).2 ↔ (i, w) ∈ acc.2) :=
    fun w => foldl_racStep_events_skip ov units l₁ _ i w hskip1
  rw [racStep]
  by_cases hoc : u.on_collision
  · rw [if_pos (show (i, u).2.on_collision = true from hoc)]
    simp only [run_collisions]
    have hid2 : (i, u).2.id = i := by simpa using hidu
    rw [hid2, hpre]
    simp only [Finset.mem_union, Finset.mem_image, hev1, reduceIte, Option.getD_some]
    constructor
    · rintro (ha | ⟨w, hw, hwe⟩)
      · exact Or.inl ha
      · obtain ⟨hw1, hw2⟩ := Finset.mem_sdiff.mp hw
        have : w = v := by
          have := congrArg Prod.snd hwe
          simpa using this
        subst this
        exact Or.inr ⟨hoc, hw1, hw2⟩
    · rintro (ha | ⟨_, hd, hnc⟩)
      · exact Or.inl ha
      · exact Or.inr ⟨v, Finset.mem_sdiff.mpr ⟨hd, hnc⟩, rfl⟩
  · rw [if_neg (show ¬ (i, u).2.on_collision = true by simpa using hoc)]
    rw [hev1 v]
    simp [hoc]

lemma units_split_skips (st : State) (i : ℕ) (u : Unit')
    (l₁ l₂ : List (ℕ × Unit'))
    (hnd : (st.units.map Prod.fst).Nodup)
    (hid : ∀ p ∈ st.units, p.2.id = p.1)
    (heq : st.units = l₁ ++ (i, u) :: l₂)
    (hni : ∀ p ∈ l₁, p.1 ≠ i) :
    (∀ p ∈ l₁, p.2.id ≠ i) ∧ (∀ p ∈ l₂, p.2.id ≠ i) ∧ u.id = i := by
  have hidu : u.id = i := by
    have := hid (i, u) (by rw [heq]; exact List.mem_append_right _ (List.mem_cons_self _ _))
    simpa using this
  have hnd2 : ∀ p ∈ l₂, p.1 ≠ i := by
    intro p hp
    rw [heq] at hnd
    simp only [List.map_append, List.map_cons, List.nodup_append] at hnd
    have hn := hnd.2.1
    rw [List.nodup_cons] at hn
    intro hpe
    exact hn.1 (hpe ▸ List.mem_map.mpr ⟨p, hp, rfl⟩)
  refine ⟨?_, ?_, hidu⟩
  · intro p hp
    rw [hid p (by rw [heq]; exact List.mem_append_left _ hp)]
    exact hni p hp
  · intro p hp
    rw [hid p (by rw [heq]; exact List.mem_append_right _ (List.mem_cons_of_mem _ hp))]
    exact hnd2 p hp

lemma run_all_collisions_cache (st : State) (ov : Unit' → Unit' → Bool)
    (i : ℕ) (u : Unit') (c : Finset ℕ)
    (hnd : (st.units.map Prod.fst).Nodup)
    (hid : ∀ p ∈ st.units, p.2.id = p.1)
    (hu : alistLookup st.units i = some u)
    (hc : alistLookup st.collision_cache i = some c) :
    alistLookup (st.run_all_collisions ov).1.collision_cache i =
      some (if u.on_collision then detect_collisions ov st.units u else c) := by
  obtain ⟨l₁, l₂, heq, hni⟩ := alistLookup_split st.units i u hu
  obtain ⟨hs1, hs2, hidu⟩ := units_split_skips st i u l₁ l₂ hnd hid heq hni
  rw [State.run_all_collisions, heq]
  exact foldl_racStep_main ov (l₁ ++ (i, u) :: l₂) l₁ l₂ i u c (st, ∅) hs1 hs2 hidu hc

lemma run_all_collisions_events (st : State) (ov : Unit' → Unit' → Bool)
    (i : ℕ) (u : Unit') (v : ℕ) (c : Finset ℕ)
    (hnd : (st.units.map Prod.fst).Nodup)
    (hid : ∀ p ∈ st.units, p.2.id = p.1)
    (hu : alistLookup st.units i = some u)
    (hc : alistLookup st.collision_cache i = some c) :
    ((i, v) ∈ (st.run_all_collisions ov).2 ↔
      u.on_collision ∧ v ∈ detect_collisions ov st.units u ∧ v ∉ c) := by
  obtain ⟨l₁, l₂, heq, hni⟩ := alistLookup_split st.units i u hu
  obtain ⟨hs1, hs2, hidu⟩ := units_split_skips st i u l₁ l₂ hnd hid heq hni
  rw [State.run_all_collisions, heq]
  rw [foldl_racStep_events_main ov (l₁ ++ (i, u) :: l₂) l₁ l₂ i u v c (st, ∅)
    hs1 hs2 hidu hc]
  simp

lemma run_all_collisions_units (st : State) (ov : Unit' → Unit' → Bool) :
    (st.run_all_collisions ov).1.units = st.units :=
  foldl_racStep_units ov st.units st.units (st, ∅)

lemma ravStep_units (cs : Unit' → Unit' → Bool) (units : List (ℕ × Unit'))
    (acc : State × Finset (ℕ × ℕ) × Finset (ℕ × ℕ)) (p : ℕ × Unit') :
    (ravStep cs units acc p).1.units = acc.1.units := by
  rw [ravStep]
  split <;> rfl

lemma foldl_ravStep_viewcache_skip (cs : Unit' → Unit' → Bool)
    (units : List (ℕ × Unit')) :
    ∀ (l : List (ℕ × Unit')) (acc : State × Finset (ℕ × ℕ) × Finset (ℕ × ℕ)) (i : ℕ),
      (∀ p ∈ l, p.2.id ≠ i) →
      alistLookup (l.foldl (ravStep cs units) acc).1.view_cache i =
        alistLookup acc.1.view_cache i := by
  intro l
  induction l with
  | nil => intro acc i _; rfl
  | cons p l ih =>
    intro acc i h
    rw [List.foldl_cons, ih _ i (fun q hq => h q (List.mem_cons_of_mem _ hq))]
    rw [ravStep]
    split
    · exact cacheWrite_lookup_ne _ _ _ _ (h p (List.mem_cons_self p l))
    · rfl

lemma foldl_ravStep_main (cs : Unit' → Unit' → Bool)
    (units l₁ l₂ : List (ℕ × Unit')) (i : ℕ) (u : Unit')
    (c : Finset ℕ) (acc : State × Finset (ℕ × ℕ) × Finset (ℕ × ℕ))
    (hskip1 : ∀ p ∈ l₁, p.2.id ≠ i) (hskip2 : ∀ p ∈ l₂, p.2.id ≠ i)
    (hidu : u.id = i)
    (hacc : alistLookup acc.1.view_cache i = some c) :
    alistLookup (((l₁ ++ (i, u) :: l₂).foldl (ravStep cs units) acc)).1.view_cache i =
      some (if u.on_enter_view || u.on_exit_view then detect_views cs units u else c) := by
  rw [List.foldl_append, List.foldl_cons]
  rw [foldl_ravStep_viewcache_skip cs units l₂ _ i hskip2]
  have hpre : alistLookup ((l₁.foldl (ravStep cs units) acc)).1.view_cache i =
      some c := by
    rw [foldl_ravStep_viewcache_skip cs units l₁ _ i hskip1]
    exact hacc
  rw [ravStep]
  by_cases hov : u.on_enter_view || u.on_exit_view
  · rw [if_pos (show ((i, u).2.on_enter_view || (i, u).2.on_exit_view) = true from hov)]
    simp only [run_enter_views]
    have hid2 : (i, u).2.id = i := by simpa using hidu
    rw [hid2]
    rw [cacheWrite_lookup_eq _ i _ c hpre]
    rw [if_pos hov]
    split <;> rfl
  · rw [if_neg (show ¬ ((i, u).2.on_enter_view || (i, u).2.on_exit_view) = true by
      simpa using hov)]
    rw [hpre, if_neg hov]

lemma run_all_views_cache (st : State) (cs : Unit' → Unit' → Bool)
    (i : ℕ) (u : Unit') (c : Finset ℕ)
    (hnd : (st.units.map Prod.fst).Nodup)
    (hid : ∀ p ∈ st.units, p.2.id = p.1)
    (hu : alistLookup st.units i = some u)
    (hc : alistLookup st.view_cache i = some c) :
    alistLookup (st.run_all_views cs).1.view_cache i =
      some (if u.on_enter_view || u.on_exit_view then detect_views cs st.units u else c) := by
  obtain ⟨l₁, l₂, heq, hni⟩ := alistLookup_split st.units i u hu
  obtain ⟨hs1, hs2, hidu⟩ := units_split_skips st i u l₁ l₂ hnd hid heq hni
  rw [State.run_all_views, heq]
  exact foldl_ravStep_main cs (l₁ ++ (i, u) :: l₂) l₁ l₂ i u c (st, ∅, ∅) hs1 hs2 hidu hc

lemma collisionTrace_units (ov : ℕ → Unit' → Unit' → Bool) (st : State) :
    ∀ t, (collisionTrace ov st t).units = st.units := by
  intro t
  induction t with
  | zero => rfl
  | succ t ih =>
    show ((collisionTrace ov st t).run_all_collisions (ov t)).1.units = st.units
    rw [run_all_collisions_units, ih]

lemma collisionTrace_cache_exists (ov : ℕ → Unit' → Unit' → Bool) (st : State)
    (i : ℕ) (u : Unit') (c₀ : Finset ℕ)
    (hnd : (st.units.map Prod.fst).Nodup)
    (hid : ∀ p ∈ st.units, p.2.id = p.1)
    (hu : alistLookup st.units i = some u)
    (hc : alistLookup st.collision_cache i = some c₀) :
    ∀ t, ∃ ct, alistLookup (collisionTrace ov st t).collision_cache i = some ct := by
  intro t
  induction t with
  | zero => exact ⟨c₀, hc⟩
  | succ t ih =>
    obtain ⟨ct, hct⟩ := ih
    refine ⟨_, run_all_collisions_cache (collisionTrace ov st t) (ov t) i u ct ?_ ?_ ?_ hct⟩
    · rw [collisionTrace_units]; exact hnd
    · rw [collisionTrace_units]; exact hid
    · rw [collisionTrace_units]; exact hu

lemma collisionTrace_cache_succ (ov : ℕ → Unit' → Unit' → Bool) (st : State)
    (i : ℕ) (u : Unit') (c₀ : Finset ℕ)
    (hnd : (st.units.map Prod.fst).Nodup)
    (hid : ∀ p ∈ st.units, p.2.id = p.1)
    (hu : alistLookup st.units i = some u)
    (hc : alistLookup st.collision_cache i = some c₀)
    (hoc : u.on_collision = true) :
    ∀ t, alistLookup (collisionTrace ov st (t + 1)).collision_cache i =
      some (detect_collisions (ov t) st.units u) := by
  intro t
  obtain ⟨ct, hct⟩ := collisionTrace_cache_exists ov st i u c₀ hnd hid hu hc t
  show alistLookup ((collisionTrace ov st t).run_all_collisions (ov t)).1.collision_cache i = _
  rw [run_all_collisions_cache (collisionTrace ov st t) (ov t) i u ct
    (by rw [collisionTrace_units]; exact hnd)
    (by rw [collisionTrace_units]; exact hid)
    (by rw [collisionTrace_units]; exact hu) hct]
  rw [collisionTrace_units, hoc]
  simp

lemma collisionEventsAt_iff (ov : ℕ → Unit' → Unit' → Bool) (st : State)
    (i v : ℕ) (u : Unit') (ct : Finset ℕ) (t : ℕ)
    (hnd : (st.units.map Prod.fst).Nodup)
    (hid : ∀ p ∈ st.units, p.2.id = p.1)
    (hu : alistLookup st.units i = some u)
    (hct : alistLookup (collisionTrace ov st t).collision_cache i = some ct) :
    ((i, v) ∈ collisionEventsAt ov st t ↔
      u.on_collision ∧ v ∈ detect_collisions (ov t) st.units u ∧ v ∉ ct) := by
  rw [collisionEventsAt,
    run_all_collisions_events (collisionTrace ov st t) (ov t) i u v ct
      (by rw [collisionTrace_units]; exact hnd)
      (by rw [collisionTrace_units]; exact hid)
      (by rw [collisionTrace_units]; exact hu) hct,
    collisionTrace_units]

/-- Claim C1 (counterexample): with no collision behavior bound for unit 0,
the detection pass is skipped for it — after `run_all_collisions` under an
always-overlapping proximity oracle, unit 0's cache entry is still `∅`
although the set of other units overlapping it is `{1}`.  The claim's
assertion that the cache equals the current relationship set even when no
behavior is bound is therefore false. -/
theorem c1_cache_cex :
    alistLookup ((cWorld.run_all_collisions (fun _ _ => true)).1.collision_cache) 0 =
      some ∅ ∧
    detect_collisions (fun _ _ => true) cWorld.units cu0 = {1} ∧
    (∅ : Finset ℕ) ≠ ({1} : Finset ℕ) := by
  refine ⟨?_, by decide, by decide⟩
  decide

/-- Claim C1 (amended): after the tick's detection pass, the relationship
caches are exact only for units with the relevant behavior bound: a
unit's `collisionSeen` entry equals the currently detected overlap set
when its collision handler is bound, and is left at its previous value
otherwise (detection skipped); likewise `viewSeen` equals the currently
detected view set when an enter-view or exit-view handler is bound, and
is otherwise left stale. -/
theorem c1_cache_amended (st : State) (ov cs : Unit' → Unit' → Bool)
    (i : ℕ) (u : Unit') (c d : Finset ℕ)
    (hnd : (st.units.map Prod.fst).Nodup)
    (hid : ∀ p ∈ st.units, p.2.id = p.1)
    (hu : alistLookup st.units i = some u)
    (hc : alistLookup st.collision_cache i = some c)
    (hd : alistLookup st.view_cache i = some d) :
    alistLookup (st.run_all_collisions ov).1.collision_cache i =
      some (if u.on_collision then detect_collisions ov st.units u else c) ∧
    alistLookup (st.run_all_views cs).1.view_cache i =
      some (if u.on_enter_view || u.on_exit_view then detect_views cs st.units u else d) :=
⟨run_all_collisions_cache st ov i u c hnd hid hu hc,
  run_all_views_cache st cs i u d hnd hid hu hd⟩

/-- Claim C1 (witness): in the concrete two-unit world, unit 1 (collision
and enter-view handlers bound) gets exact caches: its collision entry
becomes `{0}` under an always-true overlap oracle and its view entry
becomes `{0}` under an always-true visibility oracle. -/
theorem c1_cache_amended_witness :
    alistLookup cWorld.units 1 = some cu1 ∧
    alistLookup ((cWorld.run_all_collisions (fun _ _ => true)).1.collision_cache) 1 =
      some {0} ∧
    alistLookup ((cWorld.run_all_views (fun _ _ => true)).1.view_cache) 1 =
      some {0} := by
  have h := c1_cache_amended cWorld (fun _ _ => true) (fun _ _ => true) 1 cu1 ∅ ∅
    (by decide) (by decide) rfl (by decide) (by decide)
  obtain ⟨h1, h2⟩ := h
  refine ⟨rfl, ?_, ?_⟩
  · rw [h1]
    decide
  · rw [h2]
    decide

/-- Claim C5: collision events are edge-triggered.  For a unit with a
collision handler bound, an event for pair `(i, v)` is dispatched at a
tick only when `v` currently overlaps `i` and was not in `i`'s cached
overlap set; in particular, when the pair does not overlap at tick `T`,
overlaps at ticks `T+1 .. T+5` and is separated at `T+6`, exactly one
Collision event for the pair fires, at tick `T+1`, and none at
`T+2 .. T+5` (nor at `T+6`). -/
theorem c5_collision_edge_triggered (st : State) (ov : ℕ → Unit' → Unit' → Bool)
    (i v : ℕ) (u : Unit') (c₀ : Finset ℕ) (T : ℕ)
    (hnd : (st.units.map Prod.fst).Nodup)
    (hid : ∀ p ∈ st.units, p.2.id = p.1)
    (hu : alistLookup st.units i = some u)
    (hc : alistLookup st.collision_cache i = some c₀)
    (hoc : u.on_collision = true)
    (h0 : v ∉ detect_collisions (ov T) st.units u)
    (h15 : ∀ k, 1 ≤ k → k ≤ 5 → v ∈ detect_collisions (ov (T + k)) st.units u)
    (h6 : v ∉ detect_collisions (ov (T + 6)) st.units u) :
    (∀ t ct, alistLookup (collisionTrace ov st t).collision_cache i = some ct →
      (i, v) ∈ collisionEventsAt ov st t →
        v ∈ detect_collisions (ov t) st.units u ∧ v ∉ ct) ∧
    (i, v) ∈ collisionEventsAt ov st (T + 1) ∧
    (∀ k, 2 ≤ k → k ≤ 5 → (i, v) ∉ collisionEventsAt ov st (T + k)) ∧
    (i, v) ∉ collisionEventsAt ov st (T + 6) := by
  have hcache := collisionTrace_cache_succ ov st i u c₀ hnd hid hu hc hoc
  refine ⟨?_, ?_, ?_, ?_⟩
  · intro t ct hct hev
    have := (collisionEventsAt_iff ov st i v u ct t hnd hid hu hct).mp hev
    exact ⟨this.2.1, this.2.2⟩
  · rw [collisionEventsAt_iff ov st i v u (detect_collisions (ov T) st.units u)
      (T + 1) hnd hid hu (hcache T)]
    exact ⟨hoc, h15 1 (by omega) (by omega), h0⟩
  · intro k hk2 hk5
    have hkeq : T + k = (T + (k - 1)) + 1 := by omega
    rw [hkeq, collisionEventsAt_iff ov st i v u
      (detect_collisions (ov (T + (k - 1))) st.units u) _ hnd hid hu
      (hcache (T + (k - 1)))]
    intro hcon
    exact hcon.2.2 (h15 (k - 1) (by omega) (by omega))
  · have hkeq : T + 6 = (T + 5) + 1 := by omega
    rw [hkeq, collisionEventsAt_iff ov st i v u
      (detect_collisions (ov (T + 5)) st.units u) _ hnd hid hu (hcache (T + 5))]
    intro hcon
    have : T + 5 + 1 = T + 6 := by omega
    rw [this] at hcon
    exact h6 hcon.2.1

/-- Claim C5 (witness): the concrete two-unit world under the oracle
family that makes the pair overlap exactly at ticks 1..5 — one event for
`(1, 0)` fires at tick 1 and none at ticks 2..5 or 6. -/
theorem c5_collision_edge_triggered_witness :
    cu1.on_collision = true ∧
    (0 ∉ detect_collisions ((fun t (_ : Unit') (_ : Unit') => decide (1 ≤ t ∧ t ≤ 5)) 0)
      cWorld.units cu1) ∧
    (1, 0) ∈ collisionEventsAt (fun t _ _ => decide (1 ≤ t ∧ t ≤ 5)) cWorld 1 ∧
    (∀ k, 2 ≤ k → k ≤ 5 →
      (1, 0) ∉ collisionEventsAt (fun t _ _ => decide (1 ≤ t ∧ t ≤ 5)) cWorld k) := by
  have h := c5_collision_edge_triggered cWorld (fun t _ _ => decide (1 ≤ t ∧ t ≤ 5))
    1 0 cu1 ∅ 0 (by decide) (by decide) rfl (by decide) rfl
    (by decide)
    (by intro k hk1 hk5; interval_cases k <;> decide)
    (by decide)
  refine ⟨rfl, by decide, ?_, ?_⟩
  · simpa using h.2.1
  · intro k hk2 hk5
    have := h.2.2.1 k hk2 hk5
    simpa using this

lemma moveTick_nonsnap (tx ty dist px py : ℝ) (hd : 0 < dist)
    (h : ¬(tx < px + dist ∧ tx > px - dist ∧ ty < py + dist ∧ ty > py - dist)) :
    moveTick tx ty dist px py =
      (px + dist / (|tx - px| + |ty - py|) * (tx - px),
       py + dist / (|tx - px| + |ty - py|) * (ty - py)) := by
  rw [moveTick, if_neg h]
  rcases lt_trichotomy px tx with hx | hx | hx <;>
    rcases lt_trichotomy py ty with hy | hy | hy
  · simp only [if_pos hx, if_pos hy]
    rw [abs_of_pos (sub_pos.mpr hx), abs_of_pos (sub_pos.mpr hy)]
    simp only [Prod.mk.injEq]
    constructor <;> ring
  · subst hy
    simp only [if_pos hx, lt_irrefl, if_false, gt_iff_lt]
    rw [abs_of_pos (sub_pos.mpr hx), sub_self, abs_zero]
    simp only [Prod.mk.injEq]
    constructor <;> ring
  · simp only [if_pos hx, if_neg (asymm hy), if_pos hy]
    rw [abs_of_pos (sub_pos.mpr hx), abs_of_neg (sub_neg.mpr hy)]
    simp only [Prod.mk.injEq]
    constructor <;> ring
  · subst hx
    simp only [lt_irrefl, if_false, if_pos hy, gt_iff_lt]
    rw [sub_self, abs_zero, abs_of_pos (sub_pos.mpr hy)]
    simp only [Prod.mk.injEq]
    constructor <;> ring
  · exfalso
    exact h ⟨by linarith, by linarith, by linarith, by linarith⟩
  · subst hx
    simp only [lt_irrefl, if_false, if_neg (asymm hy), if_pos hy, gt_iff_lt]
    rw [sub_self, abs_zero, abs_of_neg (sub_neg.mpr hy)]
    simp only [Prod.mk.injEq]
    constructor <;> ring
  · simp only [if_neg (asymm hx), if_pos hx, if_pos hy, gt_iff_lt]
    rw [abs_of_neg (sub_neg.mpr hx), abs_of_pos (sub_pos.mpr hy)]
    simp only [Prod.mk.injEq]
    constructor <;> ring
  · subst hy
    simp only [if_neg (asymm hx), if_pos hx, lt_irrefl, if_false, gt_iff_lt]
    rw [abs_of_neg (sub_neg.mpr hx), sub_self, abs_zero]
    simp only [Prod.mk.injEq]
    constructor <;> ring
  · simp only [if_neg (asymm hx), if_pos hx, if_neg (asymm hy), if_pos hy, gt_iff_lt]
    rw [abs_of_neg (sub_neg.mpr hx), abs_of_neg (sub_neg.mpr hy)]
    simp only [Prod.mk.injEq]
    constructor <;> ring

lemma nonsnap_l1_ge (tx ty dist px py : ℝ)
    (h : ¬(tx < px + dist ∧ tx > px - dist ∧ ty < py + dist ∧ ty > py - dist)) :
    dist ≤ |tx - px| + |ty - py| := by
  by_contra hcon
  push_neg at hcon
  have hx : |tx - px| < dist :=
    lt_of_le_of_lt (le_add_of_nonneg_right (abs_nonneg _)) hcon
  have hy : |ty - py| < dist :=
    lt_of_le_of_lt (le_add_of_nonneg_left (abs_nonneg _)) hcon
  rw [abs_lt] at hx hy
  exact h ⟨by linarith [hx.2], by linarith [hx.1], by linarith [hy.2], by linarith [hy.1]⟩

lemma moveTick_l1 (tx ty dist px py : ℝ) (hd : 0 < dist)
    (h : ¬(tx < px + dist ∧ tx > px - dist ∧ ty < py + dist ∧ ty > py - dist)) :
    |tx - (moveTick tx ty dist px py).1| + |ty - (moveTick tx ty dist px py).2| =
      (|tx - px| + |ty - py|) - dist := by
  have hL := nonsnap_l1_ge tx ty dist px py h
  have hL0 : 0 < |tx - px| + |ty - py| := lt_of_lt_of_le hd hL
  rw [moveTick_nonsnap tx ty dist px py hd h]
  have e1 : tx - (px + dist / (|tx - px| + |ty - py|) * (tx - px)) =
      (1 - dist / (|tx - px| + |ty - py|)) * (tx - px) := by ring
  have e2 : ty - (py + dist / (|tx - px| + |ty - py|) * (ty - py)) =
      (1 - dist / (|tx - px| + |ty - py|)) * (ty - py) := by ring
  show |tx - (px + dist / (|tx - px| + |ty - py|) * (tx - px))| +
      |ty - (py + dist / (|tx - px| + |ty - py|) * (ty - py))| = _
  rw [e1, e2, abs_mul, abs_mul]
  have ht : 0 ≤ 1 - dist / (|tx - px| + |ty - py|) := by
    rw [sub_nonneg, div_le_one hL0]
    exact hL
  rw [abs_of_nonneg ht]
  field_simp
  ring

lemma moveTick_distSq_lt (tx ty dist px py : ℝ) (hd : 0 < dist)
    (hne : (px, py) ≠ (tx, ty)) :
    distSq tx ty (moveTick tx ty dist px py).1 (moveTick tx ty dist px py).2 <
      distSq tx ty px py := by
  have hpos : 0 < distSq tx ty px py := by
    by_cases hx : px = tx
    · have hy : py ≠ ty := fun hy => hne (by rw [hx, hy])
      have h0 : (0 : ℝ) < |ty - py| := abs_pos.mpr (sub_ne_zero.mpr (Ne.symm hy))
      have h1 : 0 < (ty - py) ^ 2 := by
        rw [← sq_abs]
        positivity
      have h2 : 0 ≤ (tx - px) ^ 2 := sq_nonneg _
      rw [distSq]
      linarith
    · have h0 : (0 : ℝ) < |tx - px| := abs_pos.mpr (sub_ne_zero.mpr (Ne.symm hx))
      have h1 : 0 < (tx - px) ^ 2 := by
        rw [← sq_abs]
        positivity
      have h2 : 0 ≤ (ty - py) ^ 2 := sq_nonneg _
      rw [distSq]
      linarith
  by_cases h : tx < px + dist ∧ tx > px - dist ∧ ty < py + dist ∧ ty > py - dist
  · rw [moveTick, if_pos h]
    show distSq tx ty tx ty < _
    rw [distSq]
    simpa [distSq] using hpos
  · have hL := nonsnap_l1_ge tx ty dist px py h
    have hL0 : 0 < |tx - px| + |ty - py| := lt_of_lt_of_le hd hL
    rw [moveTick_nonsnap tx ty dist px py hd h]
    have e1 : tx - (px + dist / (|tx - px| + |ty - py|) * (tx - px)) =
        (1 - dist / (|tx - px| + |ty - py|)) * (tx - px) := by ring
    have e2 : ty - (py + dist / (|tx - px| + |ty - py|) * (ty - py)) =
        (1 - dist / (|tx - px| + |ty - py|)) * (ty - py) := by ring
    show distSq tx ty (px + dist / (|tx - px| + |ty - py|) * (tx - px))
        (py + dist / (|tx - px| + |ty - py|) * (ty - py)) < _
    rw [distSq, e1, e2]
    have heq : ((1 - dist / (|tx - px| + |ty - py|)) * (tx - px)) ^ 2 +
        ((1 - dist / (|tx - px| + |ty - py|)) * (ty - py)) ^ 2 =
        (1 - dist / (|tx - px| + |ty - py|)) ^ 2 * distSq tx ty px py := by
      rw [distSq]
      ring
    rw [heq]
    have ht1 : 0 ≤ 1 - dist / (|tx - px| + |ty - py|) := by
      rw [sub_nonneg, div_le_one hL0]
      exact hL
    have ht2 : 1 - dist / (|tx - px| + |ty - py|) < 1 := by
      have : 0 < dist / (|tx - px| + |ty - py|) := div_pos hd hL0
      linarith
    have hsq : (1 - dist / (|tx - px| + |ty - py|)) ^ 2 < 1 := by
      nlinarith
    nlinarith

lemma moveTick_fix (tx ty dist : ℝ) (hd : 0 < dist) :
    moveTick tx ty dist tx ty = (tx, ty) := by
  rw [moveTick, if_pos ⟨by linarith, by linarith, by linarith, by linarith⟩]

lemma moveIter_fix (tx ty dist : ℝ) (hd : 0 < dist) :
    ∀ n, moveIter tx ty dist n (tx, ty) = (tx, ty) := by
  intro n
  induction n with
  | zero => rfl
  | succ n ih =>
    show moveIter tx ty dist n (moveTick tx ty dist tx ty) = (tx, ty)
    rw [moveTick_fix tx ty dist hd]
    exact ih

lemma moveIter_arrives (tx ty dist : ℝ) (hd : 0 < dist) :
    ∀ (n : ℕ) (px py : ℝ), |tx - px| + |ty - py| ≤ (n : ℝ) * dist →
      moveIter tx ty dist n (px, py) = (tx, ty) := by
  intro n
  induction n with
  | zero =>
    intro px py h
    norm_num at h
    have hx : |tx - px| = 0 := by
      have := abs_nonneg (tx - px)
      have := abs_nonneg (ty - py)
      linarith
    have hy : |ty - py| = 0 := by
      have := abs_nonneg (tx - px)
      have := abs_nonneg (ty - py)
      linarith
    rw [abs_eq_zero, sub_eq_zero] at hx hy
    show (px, py) = (tx, ty)
    rw [hx, hy]
  | succ n ih =>
    intro px py h
    show moveIter tx ty dist n (moveTick tx ty dist px py) = (tx, ty)
    by_cases hs : tx < px + dist ∧ tx > px - dist ∧ ty < py + dist ∧ ty > py - dist
    · rw [moveTick, if_pos hs]
      exact moveIter_fix tx ty dist hd n
    · have hl1 := moveTick_l1 tx ty dist px py hd hs
      have hle : |tx - (moveTick tx ty dist px py).1| +
          |ty - (moveTick tx ty dist px py).2| ≤ n * dist := by
        rw [hl1]
        have : (n + 1 : ℕ) * dist = n * dist + dist := by
          push_cast
          ring
        rw [this] at h
        linarith
      have := ih (moveTick tx ty dist px py).1 (moveTick tx ty dist px py).2 hle
      simpa using this

lemma update_move_pos (tx ty : ℝ) (u : Unit') (dt : ℝ)
    (cs : Unit' → ℝ → ℝ → Bool) (f : ℕ)
    (h : u.state = UnitState.Move tx ty) :
    ((u.update dt cs f).1.x, (u.update dt cs f).1.y) =
      moveTick tx ty (u.speed * dt) u.x u.y := by
  simp only [Unit'.update, h]
  by_cases hs : tx < u.x + u.speed * dt ∧ tx > u.x - u.speed * dt ∧
      ty < u.y + u.speed * dt ∧ ty > u.y - u.speed * dt
  · rw [if_pos hs, moveTick, if_pos hs]
  · rw [if_neg hs, moveTick, if_neg hs]
    simp only [Unit'.move_self_towards, Unit'.move_towards]

/-- Claim C3: for every target `(tx, ty)` and positive per-tick movement
budget `dist = speed · dt`, a `Move(tx,ty)` tick strictly decreases the
squared Euclidean distance to the target whenever the unit is not already
there, and the position becomes exactly `(tx, ty)` within a bounded
number of ticks — any `n` of ticks with `n · dist` at least the initial
L1 distance suffices.  The third conjunct identifies `moveTick` with the
position action of the `Move` arm of `Unit::update`. -/
theorem c3_move_monotone_terminates (tx ty dist : ℝ) (hd : 0 < dist) :
    (∀ px py : ℝ, (px, py) ≠ (tx, ty) →
      distSq tx ty (moveTick tx ty dist px py).1 (moveTick tx ty dist px py).2 <
        distSq tx ty px py) ∧
    (∀ (n : ℕ) (px py : ℝ), |tx - px| + |ty - py| ≤ (n : ℝ) * dist →
      moveIter tx ty dist n (px, py) = (tx, ty)) ∧
    (∀ (u : Unit') (dt : ℝ) (cs : Unit' → ℝ → ℝ → Bool) (f : ℕ),
      u.state = UnitState.Move tx ty → u.speed * dt = dist →
      ((u.update dt cs f).1.x, (u.update dt cs f).1.y) =
        moveTick tx ty dist u.x u.y) := by
  refine ⟨fun px py hne => moveTick_distSq_lt tx ty dist px py hd hne,
    moveIter_arrives tx ty dist hd, ?_⟩
  intro u dt cs f h hsp
  rw [← hsp]
  exact update_move_pos tx ty u dt cs f h

/-- Claim C3 (witness): target `(3,4)` from `(0,0)` with unit budget —
the first tick strictly decreases the distance, and the target is hit
exactly within 7 ticks (`L1 = 7`). -/
theorem c3_move_monotone_terminates_witness :
    (0 : ℝ) < 1 ∧ ((0 : ℝ), (0 : ℝ)) ≠ ((3 : ℝ), (4 : ℝ)) ∧
    |(3 : ℝ) - 0| + |(4 : ℝ) - 0| ≤ ((7 : ℕ) : ℝ) * 1 ∧
    distSq 3 4 (moveTick 3 4 1 0 0).1 (moveTick 3 4 1 0 0).2 < distSq 3 4 0 0 ∧
    moveIter 3 4 1 7 (0, 0) = (3, 4) := by
  have h := c3_move_monotone_terminates 3 4 1 (by norm_num)
  refine ⟨by norm_num, by simp [Prod.ext_iff], by norm_num, ?_, ?_⟩
  · exact h.1 0 0 (by simp [Prod.ext_iff])
  · exact h.2.1 7 0 0 (by norm_num)

lemma scen_tick1 (q : List (UnitState ℝ)) (cs : Unit' → ℝ → ℝ → Bool) (f : ℕ) :
    (scenAt q 0 0).update (1/2) cs f = (scenAt q 25 25, []) := by
  simp only [Unit'.update, scenAt]
  rw [if_neg (by norm_num)]
  simp only [Unit'.move_self_towards, Unit'.move_towards]
  norm_num

lemma scen_tick2 (q : List (UnitState ℝ)) (cs : Unit' → ℝ → ℝ → Bool) (f : ℕ) :
    (scenAt q 25 25).update (1/2) cs f = (scenAt q 50 50, []) := by
  simp only [Unit'.update, scenAt]
  rw [if_neg (by norm_num)]
  simp only [Unit'.move_self_towards, Unit'.move_towards]
  norm_num

lemma scen_tick3 (q : List (UnitState ℝ)) (cs : Unit' → ℝ → ℝ → Bool) (f : ℕ) :
    (scenAt q 50 50).update (1/2) cs f = (scenAt q 75 75, []) := by
  simp only [Unit'.update, scenAt]
  rw [if_neg (by norm_num)]
  simp only [Unit'.move_self_towards, Unit'.move_towards]
  norm_num

lemma scen_tick4 (q : List (UnitState ℝ)) (cs : Unit' → ℝ → ℝ → Bool) (f : ℕ) :
    (scenAt q 75 75).update (1/2) cs f =
      ({ scenAt q 100 100 with state := q.headD UnitState.Idle,
                               state_queue := q.tail }, []) := by
  simp only [Unit'.update, scenAt]
  rw [if_pos (by norm_num)]

lemma run_all_unit_updates_singleton (u : Unit') (cc vc : List (ℕ × Finset ℕ))
    (dt : ℝ) (cs : Unit' → ℝ → ℝ → Bool) (f : ℕ → ℕ) :
    (State.mk [(0, u)] cc vc).run_all_unit_updates dt cs f =
      (State.mk [(0, (u.update dt cs (f 0)).1)] cc vc,
       (u.update dt cs (f 0)).2,
       if (decide ((u.update dt cs (f 0)).1.state ≠ u.state) && u.on_state_change) = true
         then [0] else []) := by
  simp only [State.run_all_unit_updates, List.map_cons, List.map_nil, List.flatten,
    List.filter]
  refine Prod.ext rfl (Prod.ext (by simp) ?_)
  by_cases h : (decide ((u.update dt cs (f 0)).1.state ≠ u.state) && u.on_state_change) = true
  · simp only [h, if_pos rfl]
    rfl
  · rw [Bool.not_eq_true] at h
    simp only [h]
    rfl

/-- Claim C2 (counterexample): the scenario soldier (at the origin, in
`Move(100,100)` with speed 100 and `dt = 0.5`) does not reach pose
`(50,50)` after tick 1: `move_towards` splits the per-tick budget of 50
proportionally across the axes, so the new x-coordinate is
`0 + 50 · (100/200) = 25`, not 50. -/
theorem c2_scenario_cex :
    ((scenAt [] 0 0).update (1/2) (fun _ _ _ => false) 99).1.x = 25 ∧
    (25 : ℝ) ≠ 50 := by
  constructor
  · rw [scen_tick1]
    norm_num [scenAt]
  · norm_num

/-- Claim C2 (amended): the scenario soldier advances by `(25,25)` per
tick — poses `(25,25)`, `(50,50)`, `(75,75)` after ticks 1–3 with state
`Move(100,100)` unchanged and no StateChange event — and on tick 4 snaps
exactly to `(100,100)`, pops its next queued state (`Idle` when the
queue is empty), and exactly one StateChange event is dispatched that
tick (provided the popped state differs from `Move(100,100)`). -/
theorem c2_scenario_amended (q : List (UnitState ℝ))
    (cs : Unit' → ℝ → ℝ → Bool) (f : ℕ → ℕ)
    (hq : q.headD UnitState.Idle ≠ UnitState.Move 100 100) :
    (unitTicks (1/2) cs f (scenWorld q) 1).units = [(0, scenAt q 25 25)] ∧
    (unitTicks (1/2) cs f (scenWorld q) 2).units = [(0, scenAt q 50 50)] ∧
    (unitTicks (1/2) cs f (scenWorld q) 3).units = [(0, scenAt q 75 75)] ∧
    (∀ n, n < 3 →
      ((unitTicks (1/2) cs f (scenWorld q) n).run_all_unit_updates (1/2) cs f).2.2 = []) ∧
    (unitTicks (1/2) cs f (scenWorld q) 4).units =
      [(0, { scenAt q 100 100 with state := q.headD UnitState.Idle,
                                   state_queue := q.tail })] ∧
    ((unitTicks (1/2) cs f (scenWorld q) 3).run_all_unit_updates (1/2) cs f).2.2 =
      [0] := by
  have h1 : unitTicks (1/2) cs f (scenWorld q) 1 =
      State.mk [(0, scenAt q 25 25)] [(0, ∅)] [(0, ∅)] := by
    show ((State.mk [(0, scenAt q 0 0)] [(0, ∅)] [(0, ∅)]).run_all_unit_updates
      (1/2) cs f).1 = _
    rw [run_all_unit_updates_singleton, scen_tick1]
  have h2 : unitTicks (1/2) cs f (scenWorld q) 2 =
      State.mk [(0, scenAt q 50 50)] [(0, ∅)] [(0, ∅)] := by
    show ((unitTicks (1/2) cs f (scenWorld q) 1).run_all_unit_updates (1/2) cs f).1 = _
    rw [h1, run_all_unit_updates_singleton, scen_tick2]
  have h3 : unitTicks (1/2) cs f (scenWorld q) 3 =
      State.mk [(0, scenAt q 75 75)] [(0, ∅)] [(0, ∅)] := by
    show ((unitTicks (1/2) cs f (scenWorld q) 2).run_all_unit_updates (1/2) cs f).1 = _
    rw [h2, run_all_unit_updates_singleton, scen_tick3]
  have h4 : unitTicks (1/2) cs f (scenWorld q) 4 =
      State.mk [(0, { scenAt q 100 100 with state := q.headD UnitState.Idle,
                                            state_queue := q.tail })]
        [(0, ∅)] [(0, ∅)] := by
    show ((unitTicks (1/2) cs f (scenWorld q) 3).run_all_unit_updates (1/2) cs f).1 = _
    rw [h3, run_all_unit_updates_singleton, scen_tick4]
  refine ⟨by rw [h1], by rw [h2], by rw [h3], ?_, by rw [h4], ?_⟩
  · intro n hn
    interval_cases n
    · show ((State.mk [(0, scenAt q 0 0)] [(0, ∅)] [(0, ∅)]).run_all_unit_updates
        (1/2) cs f).2.2 = []
      rw [run_all_unit_updates_singleton, scen_tick1]
      simp [scenAt]
    · rw [h1, run_all_unit_updates_singleton, scen_tick2]
      simp [scenAt]
    · rw [h2, run_all_unit_updates_singleton, scen_tick3]
      simp [scenAt]
  · rw [h3, run_all_unit_updates_singleton, scen_tick4]
    simp only [scenAt]
    rw [if_pos]
    rw [Bool.and_eq_true]
    exact ⟨decide_eq_true (by simpa using hq), rfl⟩

/-- Claim C2 (witness): the amended scenario instantiated with an empty
state queue — the popped state is `Idle`, which differs from
`Move(100,100)`. -/
theorem c2_scenario_amended_witness :
    (([] : List (UnitState ℝ)).headD UnitState.Idle ≠ UnitState.Move 100 100) ∧
    (unitTicks (1/2) (fun _ _ _ => false) (fun _ => 99) (scenWorld []) 4).units =
      [(0, { scenAt [] 100 100 with state := UnitState.Idle, state_queue := [] })] ∧
    ((unitTicks (1/2) (fun _ _ _ => false) (fun _ => 99) (scenWorld []) 3).run_all_unit_updates
        (1/2) (fun _ _ _ => false) (fun _ => 99)).2.2 = [0] := by
  have hq : (([] : List (UnitState ℝ)).headD UnitState.Idle ≠ UnitState.Move 100 100) := by
    simp
  have h := c2_scenario_amended [] (fun _ _ _ => false) (fun _ => 99) hq
  exact ⟨hq, h.2.2.2.2.1, h.2.2.2.2.2⟩

/-- Claim C6 (counterexample): while the Shoot point is outside the wedge
(the `can_see_point` oracle answers false), the tick does not merely
rotate/translate the shooter — it rewrites the discrete state to
`Aim(10,10)` (pushing `Shoot(10,10)` back on the queue), so the state
does not remain `Shoot`. -/
theorem c6_shoot_cex :
    ((cShooter.update (1/2) (fun _ _ _ => false) 99).1.state = UnitState.Aim 10 10 ∧
      (cShooter.update (1/2) (fun _ _ _ => false) 99).1.state ≠ UnitState.Shoot 10 10) ∧
    (cShooter.update (1/2) (fun _ _ _ => false) 99).1.x = cShooter.x ∧
    (cShooter.update (1/2) (fun _ _ _ => false) 99).1.rotation = cShooter.rotation := by
  have h : (cShooter.update (1/2) (fun _ _ _ => false) 99).1 =
      { cShooter with state := UnitState.Aim 10 10,
                      state_queue := [UnitState.Shoot 10 10] } := by
    simp [Unit'.update, cShooter]
  rw [h]
  refine ⟨⟨rfl, by simp⟩, rfl, rfl⟩

/-- Claim C6 (amended): a tick in state `Shoot(x,y)` with the point
outside the field-of-view wedge spawns nothing and leaves the pose
untouched, but transitions the state to `Aim(x,y)` and pushes
`Shoot(x,y)` onto the queue — the rotation/translation toward the target
happens on later `Aim` ticks, and the wedge used is the unit's
field-of-view (`can_see_point`), the only wedge the code has.  A tick
with the point inside the wedge pops the next queued state and spawns
exactly one Bullet in state `Move(x,y)`, positioned at the shooter's
position offset by `move_towards(x, y, width + 10)` — along the line to
the target point, not along the shooter's current heading. -/
theorem c6_shoot_amended (u : Unit') (x y dt : ℝ)
    (cs : Unit' → ℝ → ℝ → Bool) (f : ℕ)
    (h : u.state = UnitState.Shoot x y) :
    (cs u x y = false →
      (u.update dt cs f).2 = [] ∧
      (u.update dt cs f).1.x = u.x ∧
      (u.update dt cs f).1.y = u.y ∧
      (u.update dt cs f).1.rotation = u.rotation ∧
      (u.update dt cs f).1.state = UnitState.Aim x y ∧
      (u.update dt cs f).1.state_queue = UnitState.Shoot x y :: u.state_queue) ∧
    (cs u x y = true →
      (u.update dt cs f).2 =
        [new_bullet f (u.x + (u.move_towards x y (u.width + 10)).1)
          (u.y + (u.move_towards x y (u.width + 10)).2) u.team (UnitState.Move x y)] ∧
      (u.update dt cs f).1.state = u.state_queue.headD UnitState.Idle ∧
      (u.update dt cs f).1.state_queue = u.state_queue.tail) := by
  constructor
  · intro hcs
    simp [Unit'.update, h, hcs]
  · intro hcs
    simp [Unit'.update, h, hcs]

/-- Claim C6 (witness): the concrete shooter with the target visible
spawns exactly one Bullet in state `Move(10,10)` at `(17.5, 17.5)` — the
`width + 10 = 35` budget split along the diagonal to the target, which is
not one body-width along the shooter's heading. -/
theorem c6_shoot_amended_witness :
    cShooter.state = UnitState.Shoot 10 10 ∧
    (cShooter.update (1/2) (fun _ _ _ => true) 99).2 =
      [new_bullet 99 (35/2) (35/2) 1 (UnitState.Move 10 10)] ∧
    (cShooter.update (1/2) (fun _ _ _ => true) 99).1.state = UnitState.Idle := by
  have h := c6_shoot_amended cShooter 10 10 (1/2) (fun _ _ _ => true) 99 rfl
  obtain ⟨hsp, hst, _⟩ := h.2 rfl
  refine ⟨rfl, ?_, hst⟩
  rw [hsp]
  have hm : (cShooter.move_towards 10 10 (cShooter.width + 10)) = (35/2, 35/2) := by
    simp only [Unit'.move_towards, cShooter]
    norm_num
  rw [hm]
  norm_num [cShooter]

lemma rustRem_eq_self (a b : ℝ) (h0 : 0 ≤ a) (hab : a < b) : rustRem a b = a := by
  have hb : 0 < b := lt_of_le_of_lt h0 hab
  have hdiv : ⌊a / b⌋ = 0 := by
    rw [Int.floor_eq_zero_iff]
    exact ⟨div_nonneg h0 (le_of_lt hb), by rwa [div_lt_one hb]⟩
  rw [rustRem, realTrunc, if_pos (div_nonneg h0 (le_of_lt hb)), hdiv]
  norm_num

lemma rustRem_eq_self_neg (a b : ℝ) (hb : 0 < b) (h1 : -b < a) (h2 : a < 0) :
    rustRem a b = a := by
  have hdn : a / b < 0 := div_neg_of_neg_of_pos h2 hb
  have hceil : ⌈a / b⌉ = 0 := by
    rw [Int.ceil_eq_zero_iff]
    constructor
    · rw [lt_div_iff₀ hb]
      linarith
    · exact le_of_lt hdn
  rw [rustRem, realTrunc, if_neg (not_le.mpr hdn), hceil]
  norm_num

lemma arctan_nonpos_of_nonpos (z : ℝ) (h : z ≤ 0) : Real.arctan z ≤ 0 := by
  have := Real.arctan_strictMono.monotone h
  rwa [Real.arctan_zero] at this

lemma arctan_pos_of_pos (z : ℝ) (h : 0 < z) : 0 < Real.arctan z := by
  have := Real.arctan_strictMono h
  rwa [Real.arctan_zero] at this

lemma atan2_range (y x : ℝ) : -Real.pi < atan2 y x ∧ atan2 y x ≤ Real.pi := by
  have hpi := Real.pi_pos
  have h1 := Real.arctan_lt_pi_div_two (y / x)
  have h2 := Real.neg_pi_div_two_lt_arctan (y / x)
  rw [atan2]
  by_cases hx : 0 < x
  · rw [if_pos hx]
    constructor <;> linarith
  · rw [if_neg hx]
    by_cases hx2 : x < 0
    · rw [if_pos hx2]
      by_cases hy : 0 ≤ y
      · rw [if_pos hy]
        have hle : Real.arctan (y / x) ≤ 0 :=
          arctan_nonpos_of_nonpos _ (div_nonpos_iff.mpr (Or.inl ⟨hy, le_of_lt hx2⟩))
        constructor <;> linarith
      · rw [if_neg hy]
        push_neg at hy
        have hgt : 0 < Real.arctan (y / x) :=
          arctan_pos_of_pos _ (div_pos_iff.mpr (Or.inr ⟨hy, hx2⟩))
        constructor <;> linarith
    · rw [if_neg hx2]
      by_cases hy : 0 < y
      · rw [if_pos hy]
        constructor <;> linarith
      · rw [if_neg hy]
        by_cases hy2 : y < 0
        · rw [if_pos hy2]
          constructor <;> linarith
        · rw [if_neg hy2]
          constructor <;> linarith

lemma destRotation_range (p : Pose) (x y : ℝ) :
    0 ≤ destRotation p x y ∧ destRotation p x y < 2 * Real.pi := by
  have hpi := Real.pi_pos
  obtain ⟨ha1, ha2⟩ := atan2_range (y - p.y) (x - p.x)
  rw [destRotation]
  have hrem : rustRem (atan2 (y - p.y) (x - p.x) + Real.pi / 2) (2 * Real.pi) =
      atan2 (y - p.y) (x - p.x) + Real.pi / 2 := by
    by_cases hnn : 0 ≤ atan2 (y - p.y) (x - p.x) + Real.pi / 2
    · exact rustRem_eq_self _ _ hnn (by linarith)
    · push_neg at hnn
      exact rustRem_eq_self_neg _ _ (by linarith) (by linarith) hnn
  rw [hrem]
  by_cases hneg : atan2 (y - p.y) (x - p.x) + Real.pi / 2 < 0
  · rw [if_pos hneg]
    constructor <;> linarith
  · rw [if_neg hneg]
    push_neg at hneg
    constructor <;> linarith

lemma rotate_towards_normalized (p : Pose) (x y dt : ℝ)
    (h0 : 0 ≤ p.rotation) (h2 : p.rotation < 2 * Real.pi) :
    p.rotate_towards x y dt = Pose.mk p.x p.y
      (if destRotation p x y ≤ p.rotation + dt ∧ destRotation p x y ≥ p.rotation - dt
       then destRotation p x y
       else if destRotation p x y - p.rotation > 0 ∧
           destRotation p x y - p.rotation < Real.pi
       then p.rotation + dt
       else if p.rotation - dt < 0 then p.rotation - dt + 2 * Real.pi
       else p.rotation - dt) := by
  simp only [Pose.rotate_towards, destRotation,
    rustRem_eq_self p.rotation (2 * Real.pi) h0 h2]

/-- Claim C4 (amended): when the starting rotation is already normalised
into `[0, 2π)` and `0 < maxDelta < π`, `rotate_towards` keeps the
position, changes the heading by at most `maxDelta` as an angle (the
plain difference is at most `maxDelta`, or exactly `2π` minus that on the
wrap-around branch), and the result lies in `[0, 2π)`.  When it does not
snap, it advances upward exactly when the signed bearing difference lies
in `(0, π)` — the shorter direction for differences in `(-π, π)` and in
`(π, 2π)`, but the longer one when the difference is below `-π` —
otherwise it moves downward by `maxDelta`, wrapping by `2π` if that
crosses zero. -/
theorem c4_rotate_towards_amended (p : Pose) (x y dt : ℝ)
    (hr0 : 0 ≤ p.rotation) (hr2 : p.rotation < 2 * Real.pi)
    (hdt0 : 0 < dt) (hdtp : dt < Real.pi) :
    (0 ≤ (p.rotate_towards x y dt).rotation ∧
      (p.rotate_towards x y dt).rotation < 2 * Real.pi) ∧
    (|(p.rotate_towards x y dt).rotation - p.rotation| ≤ dt ∨
      |(p.rotate_towards x y dt).rotation - (p.rotation + 2 * Real.pi)| = dt) ∧
    (¬(destRotation p x y ≤ p.rotation + dt ∧ destRotation p x y ≥ p.rotation - dt) →
      ((0 < destRotation p x y - p.rotation ∧ destRotation p x y - p.rotation < Real.pi →
        (p.rotate_towards x y dt).rotation = p.rotation + dt) ∧
       (¬(0 < destRotation p x y - p.rotation ∧
           destRotation p x y - p.rotation < Real.pi) →
        (p.rotate_towards x y dt).rotation = p.rotation - dt ∨
        (p.rotate_towards x y dt).rotation = p.rotation - dt + 2 * Real.pi))) := by
  have hpi := Real.pi_pos
  obtain ⟨hd0, hd2⟩ := destRotation_range p x y
  rw [rotate_towards_normalized p x y dt hr0 hr2]
  dsimp only
  by_cases hsnap : destRotation p x y ≤ p.rotation + dt ∧
      destRotation p x y ≥ p.rotation - dt
  · rw [if_pos hsnap]
    refine ⟨⟨hd0, hd2⟩, Or.inl (abs_le.mpr ⟨by linarith [hsnap.2], by linarith [hsnap.1]⟩),
      fun hc => absurd hsnap hc⟩
  · rw [if_neg hsnap]
    by_cases hdir : destRotation p x y - p.rotation > 0 ∧
        destRotation p x y - p.rotation < Real.pi
    · rw [if_pos hdir]
      have hgt : destRotation p x y > p.rotation + dt := by
        by_contra hle
        push_neg at hle
        exact hsnap ⟨hle, by linarith [hdir.1]⟩
      refine ⟨⟨by linarith, by linarith⟩, Or.inl (by rw [abs_of_nonneg (by linarith)]; ring_nf; simp), ?_⟩
      intro _
      exact ⟨fun _ => rfl, fun hc => absurd hdir hc⟩
    · rw [if_neg hdir]
      by_cases hwrap : p.rotation - dt < 0
      · rw [if_pos hwrap]
        refine ⟨⟨by linarith, by linarith⟩, Or.inr ?_, ?_⟩
        · rw [show p.rotation - dt + 2 * Real.pi - (p.rotation + 2 * Real.pi) = -dt by ring,
            abs_neg, abs_of_pos hdt0]
        · intro _
          exact ⟨fun hc => absurd hc hdir, fun _ => Or.inr rfl⟩
      · rw [if_neg hwrap]
        push_neg at hwrap
        refine ⟨⟨by linarith, by linarith⟩, Or.inl ?_, ?_⟩
        · rw [show p.rotation - dt - p.rotation = -dt by ring, abs_neg, abs_of_pos hdt0]
        · intro _
          exact ⟨fun hc => absurd hc hdir, fun _ => Or.inl rfl⟩

/-- Claim C4 (witness): a normalised pose (rotation 1) with `maxDelta =
0.1` — the amended statement's range conclusion holds. -/
theorem c4_rotate_towards_amended_witness :
    (0 : ℝ) ≤ 1 ∧ (1 : ℝ) < 2 * Real.pi ∧ (0 : ℝ) < 1/10 ∧ (1/10 : ℝ) < Real.pi ∧
    (0 ≤ ((Pose.mk 0 0 1).rotate_towards 1 0 (1/10)).rotation ∧
      ((Pose.mk 0 0 1).rotate_towards 1 0 (1/10)).rotation < 2 * Real.pi) := by
  have hpi := Real.pi_gt_d6
  refine ⟨by norm_num, by nlinarith, by norm_num, by nlinarith, ?_⟩
  exact (c4_rotate_towards_amended (Pose.mk 0 0 1) 1 0 (1/10) (by norm_num)
    (by dsimp only; nlinarith) (by norm_num) (by nlinarith)).1

/-- Claim C4 (counterexample): from the (unnormalised) heading 7 the call
`rotate_towards (1, 0) 0.1` yields rotation 7.1, which does not lie in
`[0, 2π)`: the code normalises only a scratch copy of the current
rotation for the comparison, then adds the delta to the raw heading. -/
theorem c4_rotate_towards_cex :
    ((Pose.mk 0 0 7).rotate_towards 1 0 (1/10)).rotation = 71/10 ∧
    ¬((71/10 : ℝ) < 2 * Real.pi) := by
  have hpi1 := Real.pi_gt_d6
  have hpi2 := Real.pi_lt_d2
  constructor
  · have hatan : atan2 ((0:ℝ) - 0) ((1:ℝ) - 0) = 0 := by
      rw [atan2, if_pos (by norm_num : (0:ℝ) < 1 - 0)]
      norm_num [Real.arctan_zero]
    simp only [Pose.rotate_towards]
    rw [hatan, zero_add,
      rustRem_eq_self (Real.pi / 2) (2 * Real.pi) (by positivity) (by nlinarith)]
    have hcurr : rustRem (7:ℝ) (2 * Real.pi) = 7 - 2 * Real.pi := by
      have hfloor : ⌊(7:ℝ) / (2 * Real.pi)⌋ = 1 := by
        rw [Int.floor_eq_iff]
        constructor
        · rw [Int.cast_one, le_div_iff₀ (by nlinarith)]
          nlinarith
        · rw [Int.cast_one, div_lt_iff₀ (by nlinarith)]
          nlinarith
      rw [rustRem, realTrunc, if_pos (by positivity), hfloor]
      push_cast
      ring
    rw [hcurr]
    rw [if_neg (not_lt.mpr (by positivity))]
    rw [if_neg (by intro hc; nlinarith [hc.1])]
    rw [if_pos ⟨by nlinarith, by nlinarith⟩]
    norm_num
  · intro hlt
    nlinarith
